import Mathlib

/-!
Verification of the chunked cleanse-and-aggregate sales pipeline.

This file gives a shallow embedding of the pipeline's core — the record
cleaner (`src/cleansing/data_cleaner.py`), the streaming aggregator
(`src/transformation/aggregator.py`) and the orchestrator's quality report
(`src/pipeline.py`) — and proves properties of that embedding.

Modelling conventions:
* pandas `DataFrame` chunks are `List Row`, in row order;
* numeric cells (`float` columns with possible `NaN`) are `Option ℚ`;
* the raw `quantity` column, which may hold text, is a `NumCell`;
* the `sale_date` column, a string before cleaning and a datetime after,
  is a `DateCell`;
* Python `round(x, 2)` is `round2` (decimal rounding of the exact rational;
  binary-float representation effects are not modelled);
* the mutable `DataQualityIssues` counter object is threaded explicitly as
  a `DataQualityIssues` value through every function that mutates it.
-/

/-- Python `round(x, 2)` / pandas `.round(2)`: round to two decimal places. -/
def round2 (x : ℚ) : ℚ := mkRat (round (x * 100)) 100

/-- Python `int(x)` / pandas `.astype(int)`: truncation toward zero. -/
def intTrunc (q : ℚ) : ℤ := q.num.tdiv q.den

/-- pandas `'mean'` aggregation over a column: skips `NaN` values; the mean of
an all-`NaN` column is `NaN` (`none`). -/
def listMean (l : List ℚ) : Option ℚ :=
  if l.isEmpty then none else some (l.sum / l.length)

/-! ## Configuration constants, from `src/config/settings.py`. -/

def MIN_QUANTITY : ℚ := 0
def MAX_QUANTITY : ℚ := 10000
def MIN_PRICE : ℚ := 1 / 100
def MAX_PRICE : ℚ := 100000
def MIN_DISCOUNT : ℚ := 0
def MAX_DISCOUNT : ℚ := 100

/-- `REGION_MAPPING` from `settings.py`, as an association list in source order. -/
def REGION_MAPPING : List (String × String) :=
  [ ("north america", "North America"),
    ("n. america", "North America"),
    ("n america", "North America"),
    ("northamerica", "North America"),
    ("na", "North America"),
    ("europe", "Europe"),
    ("eu", "Europe"),
    ("europa", "Europe"),
    ("asia", "Asia"),
    ("asian", "Asia"),
    ("south america", "South America"),
    ("s. america", "South America"),
    ("s america", "South America"),
    ("southamerica", "South America"),
    ("sa", "South America"),
    ("africa", "Africa"),
    ("african", "Africa"),
    ("oceania", "Oceania"),
    ("australia", "Oceania"),
    ("pacific", "Oceania") ]

/-- `CATEGORY_MAPPING` from `settings.py`. -/
def CATEGORY_MAPPING : List (String × String) :=
  [ ("electronics", "Electronics"),
    ("electronic", "Electronics"),
    ("electrnics", "Electronics"),
    ("elctronics", "Electronics"),
    ("clothing", "Clothing"),
    ("clothes", "Clothing"),
    ("apparel", "Clothing"),
    ("fashion", "Clothing"),
    ("home & garden", "Home & Garden"),
    ("home and garden", "Home & Garden"),
    ("home", "Home & Garden"),
    ("garden", "Home & Garden"),
    ("sports", "Sports"),
    ("sport", "Sports"),
    ("sporting goods", "Sports"),
    ("books", "Books"),
    ("book", "Books"),
    ("toys", "Toys"),
    ("toy", "Toys"),
    ("toys & games", "Toys"),
    ("food", "Food & Beverage"),
    ("beverage", "Food & Beverage"),
    ("food & beverage", "Food & Beverage") ]

/-- `pd.Series.map(dict)`: look a key up in an association list. -/
def lookupStr (m : List (String × String)) (k : String) : Option String :=
  match m with
  | [] => none
  | (k', v) :: rest => if k = k' then some v else lookupStr rest k

/-! ## Character-list string helpers.

Lean's `String.split`, `String.trim` … recurse on byte positions and do not
reduce in the kernel, so the string manipulation done by the cleaner is
modelled on the underlying character lists. -/

/-- Split a character list on a separator character (like `str.split(sep)`:
`n` separators yield `n + 1` pieces, empty pieces included). -/
def splitOnChar (c : Char) : List Char → List (List Char)
  | [] => [[]]
  | x :: xs =>
    let r := splitOnChar c xs
    if x = c then [] :: r
    else
      match r with
      | [] => [[x]]
      | h :: t => (x :: h) :: t

/-- Python `str.strip()`: drop leading and trailing whitespace. -/
def trimChars (l : List Char) : List Char :=
  ((l.dropWhile Char.isWhitespace).reverse.dropWhile Char.isWhitespace).reverse

/-- Python `str.lower()` on ASCII letters. -/
def lowerChars (l : List Char) : List Char := l.map Char.toLower

/-- Parse a non-empty all-digit character list as a natural number. -/
def digitsToNat? (l : List Char) : Option ℕ :=
  if l ≠ [] ∧ l.all Char.isDigit then
    some (l.foldl (fun n c => 10 * n + (c.toNat - 48)) 0)
  else none

/-- `.str.lower().str.strip()` applied to one cell, as the key used for the
synonym-table lookup. -/
def normKey (s : String) : String := String.mk (trimChars (lowerChars s.data))

/-! ## Calendar dates and `pd.to_datetime` format parsing. -/

/-- A parsed calendar date (a `pd.Timestamp` at day resolution). -/
structure Date where
  year : ℕ
  month : ℕ
  day : ℕ
deriving DecidableEq, Repr

def isLeap (y : ℕ) : Bool := (y % 4 = 0 && y % 100 ≠ 0) || y % 400 = 0

def daysInMonth (y m : ℕ) : ℕ :=
  if m = 2 then (if isLeap y then 29 else 28)
  else if m = 4 || m = 6 || m = 9 || m = 11 then 30
  else 31

/-- Calendar validity as checked by `datetime`: real year/month/day.
(The narrower `pd.Timestamp` year range is not modelled.) -/
def mkDate (y m d : ℕ) : Option Date :=
  if 1 ≤ y ∧ 1 ≤ m ∧ m ≤ 12 ∧ 1 ≤ d ∧ d ≤ daysInMonth y m then
    some ⟨y, m, d⟩
  else none

/-- strptime `%Y`: exactly four digits. -/
def parseY4 (s : List Char) : Option ℕ :=
  if s.length = 4 then digitsToNat? s else none

/-- strptime `%y`: exactly two digits, 00–68 ↦ 2000s, 69–99 ↦ 1900s. -/
def parseY2 (s : List Char) : Option ℕ :=
  if s.length = 2 then (digitsToNat? s).map (fun v => if v ≤ 68 then 2000 + v else 1900 + v)
  else none

/-- strptime `%m` / `%d`: one or two digits (value range is checked by `mkDate`). -/
def parseMD (s : List Char) : Option ℕ :=
  if 1 ≤ s.length ∧ s.length ≤ 2 then digitsToNat? s else none

/-- Component order of a separated date format. -/
inductive FieldOrder where
  | ymd
  | mdy
  | dmy
deriving DecidableEq, Repr

/-- Year width of a separated date format. -/
inductive YearKind where
  | four
  | two
deriving DecidableEq, Repr

/-- One entry of `DATE_FORMATS`: either three fields joined by a separator
character, or the compact `%Y%m%d`. -/
inductive DateFmt where
  | sep (c : Char) (ord : FieldOrder) (yk : YearKind)
  | compactYmd
deriving DecidableEq, Repr

/-- `DATE_FORMATS` from `settings.py`, in priority order:
`%Y-%m-%d, %m/%d/%Y, %d/%m/%Y, %Y/%m/%d, %m-%d-%Y, %d-%m-%Y, %Y%m%d,
%m/%d/%y, %d/%m/%y`. -/
def DATE_FORMATS : List DateFmt :=
  [ .sep '-' .ymd .four,
    .sep '/' .mdy .four,
    .sep '/' .dmy .four,
    .sep '/' .ymd .four,
    .sep '-' .mdy .four,
    .sep '-' .dmy .four,
    .compactYmd,
    .sep '/' .mdy .two,
    .sep '/' .dmy .two ]

def parseYearOf : YearKind → List Char → Option ℕ
  | .four, s => parseY4 s
  | .two, s => parseY2 s

/-- Parse a separated format: split on the separator into exactly three
components, parse each per its role, then validate the calendar date. -/
def parseSepFmt (c : Char) (ord : FieldOrder) (yk : YearKind) (s : List Char) : Option Date :=
  match splitOnChar c s with
  | [a, b, e] =>
    match ord with
    | .ymd =>
      match parseYearOf yk a, parseMD b, parseMD e with
      | some y, some m, some d => mkDate y m d
      | _, _, _ => none
    | .mdy =>
      match parseMD a, parseMD b, parseYearOf yk e with
      | some m, some d, some y => mkDate y m d
      | _, _, _ => none
    | .dmy =>
      match parseMD a, parseMD b, parseYearOf yk e with
      | some d, some m, some y => mkDate y m d
      | _, _, _ => none
  | _ => none

/-- A month/day split candidate for `%Y%m%d` matches the strptime regex when
its value is in the regex's range (`%m`: 1–12, two-digit, or 1–9, one-digit;
`%d`: 1–31 or 1–9). -/
def compactPiece (len lo hi : ℕ) (s : List Char) : Option ℕ :=
  if s.length = len then
    match digitsToNat? s with
    | some v => if lo ≤ v ∧ v ≤ hi then some v else none
    | none => none
  else none

/-- Parse `%Y%m%d`: four-digit year, then month/day widths tried in the
strptime backtracking order (2+2, 2+1, 1+2, 1+1); the first width split whose
pieces match the `%m`/`%d` regex ranges is validated as a calendar date. -/
def parseCompactYmd (s : List Char) : Option Date :=
  match parseY4 (s.take 4) with
  | none => none
  | some y =>
    let body := s.drop 4
    let pick := fun (ml dl : ℕ) =>
      if body.length = ml + dl then
        match compactPiece ml 1 12 (body.take ml), compactPiece dl 1 31 (body.drop ml) with
        | some m, some d => some (m, d)
        | _, _ => none
      else none
    match pick 2 2 with
    | some (m, d) => mkDate y m d
    | none =>
      match pick 2 1 with
      | some (m, d) => mkDate y m d
      | none =>
        match pick 1 2 with
        | some (m, d) => mkDate y m d
        | none =>
          match pick 1 1 with
          | some (m, d) => mkDate y m d
          | none => none

/-- `pd.to_datetime(s, format=fmt, errors='coerce')` on one string cell. -/
def parseFormat (f : DateFmt) (s : String) : Option Date :=
  match f with
  | .sep c ord yk => parseSepFmt c ord yk s.data
  | .compactYmd => parseCompactYmd s.data

example : parseFormat (.sep '-' .ymd .four) ("2024-01-05") = some ⟨2024, 1, 5⟩ := by decide
example : parseFormat (.sep '/' .mdy .four) ("1/31/2024") = some ⟨2024, 1, 31⟩ := by decide
example : parseFormat .compactYmd ("20240105") = some ⟨2024, 1, 5⟩ := by decide
example : parseFormat (.sep '-' .ymd .four) ("2024-02-30") = none := by decide
example : parseFormat (.sep '/' .mdy .two) ("1/31/99") = some ⟨1999, 1, 31⟩ := by decide

/-! ## Cells and rows. -/

/-- A cell of a column that may hold a number, text, or `NaN` (the raw
`quantity` column may arrive as text; `pd.to_numeric(…, errors='coerce')`
is `NumCell.toNumeric`). -/
inductive NumCell where
  | num (q : ℚ)
  | text (s : String)
  | null
deriving DecidableEq, Repr

/-- Parse a decimal numeral (optional sign, optional fractional part), the
string-to-number coercion performed by `pd.to_numeric`. -/
def parseRatChars (l : List Char) : Option ℚ :=
  let signed : ℚ × List Char :=
    match l with
    | '-' :: r => (-1, r)
    | '+' :: r => (1, r)
    | r => (1, r)
  let natVal : List Char → ℕ := fun ds => ds.foldl (fun n c => 10 * n + (c.toNat - 48)) 0
  match splitOnChar '.' signed.2 with
  | [ip] => (digitsToNat? ip).map fun n => signed.1 * n
  | [ip, fp] =>
    if (ip ≠ [] ∨ fp ≠ []) ∧ ip.all Char.isDigit ∧ fp.all Char.isDigit then
      some (signed.1 * ((natVal ip : ℚ) + (natVal fp : ℚ) / (10 : ℚ) ^ fp.length))
    else none
  | _ => none

/-- `pd.to_numeric(cell, errors='coerce')`. -/
def NumCell.toNumeric : NumCell → Option ℚ
  | .num q => some q
  | .text s => parseRatChars s.data
  | .null => none

/-- `NaN` test on a possibly-textual cell (text is not `NaN`). -/
def NumCell.isNA : NumCell → Bool
  | .null => true
  | _ => false

/-- The `sale_date` column: a string before cleaning, a datetime after. -/
inductive DateCell where
  | text (s : String)
  | date (d : Date)
  | null
deriving DecidableEq, Repr

def DateCell.isNA : DateCell → Bool
  | .null => true
  | _ => false

/-- One row of a chunk, with the fixed column set of the input file. -/
structure Row where
  order_id : Option String
  product_name : Option String
  category : Option String
  quantity : NumCell
  unit_price : Option ℚ
  discount_percent : Option ℚ
  region : Option String
  sale_date : DateCell
  revenue : Option ℚ
deriving DecidableEq, Repr

/-! ## The quality tally (`DataQualityIssues` in `data_cleaner.py`). -/

/-- The fixed issue-category keys of `DataQualityIssues.issues`. -/
inductive IssueType where
  | duplicate_orders
  | invalid_quantity
  | invalid_price
  | invalid_discount
  | invalid_date
  | missing_values
  | normalized_regions
  | normalized_categories
  | total_rows_processed
  | total_rows_cleaned
deriving DecidableEq, Repr

/-- The counter set of `DataQualityIssues.__init__`, one field per key. -/
structure DataQualityIssues where
  duplicate_orders : ℕ
  invalid_quantity : ℕ
  invalid_price : ℕ
  invalid_discount : ℕ
  invalid_date : ℕ
  missing_values : ℕ
  normalized_regions : ℕ
  normalized_categories : ℕ
  total_rows_processed : ℕ
  total_rows_cleaned : ℕ
deriving DecidableEq, Repr

/-- All counters start at zero. -/
def initIssues : DataQualityIssues := ⟨0, 0, 0, 0, 0, 0, 0, 0, 0, 0⟩

/-- `DataQualityIssues.add_issue`: add `n` to the named counter. -/
def DataQualityIssues.add_issue (t : DataQualityIssues) (ty : IssueType) (n : ℕ) :
    DataQualityIssues :=
  match ty with
  | .duplicate_orders => { t with duplicate_orders := t.duplicate_orders + n }
  | .invalid_quantity => { t with invalid_quantity := t.invalid_quantity + n }
  | .invalid_price => { t with invalid_price := t.invalid_price + n }
  | .invalid_discount => { t with invalid_discount := t.invalid_discount + n }
  | .invalid_date => { t with invalid_date := t.invalid_date + n }
  | .missing_values => { t with missing_values := t.missing_values + n }
  | .normalized_regions => { t with normalized_regions := t.normalized_regions + n }
  | .normalized_categories => { t with normalized_categories := t.normalized_categories + n }
  | .total_rows_processed => { t with total_rows_processed := t.total_rows_processed + n }
  | .total_rows_cleaned => { t with total_rows_cleaned := t.total_rows_cleaned + n }

/-! ## Generic list machinery shared by the aggregator model. -/

/-- `drop_duplicates(subset=[key], keep='first')`, generic in the key. -/
def dedupByKeyAux {α κ : Type} [DecidableEq κ] (key : α → κ) (seen : List κ) :
    List α → List α
  | [] => []
  | x :: xs =>
    if key x ∈ seen then dedupByKeyAux key seen xs
    else x :: dedupByKeyAux key (key x :: seen) xs

def dedupByKey {α κ : Type} [DecidableEq κ] (key : α → κ) (l : List α) : List α :=
  dedupByKeyAux key [] l

/-- Insert a key into a strictly sorted list of distinct keys. -/
def insertKey {κ : Type} [LinearOrder κ] (x : κ) : List κ → List κ
  | [] => [x]
  | y :: ys =>
    if x < y then x :: y :: ys
    else if x = y then y :: ys
    else y :: insertKey x ys

/-- The sorted distinct key list of a pandas `groupby` (groupby sorts its
group keys ascending). -/
def sortedKeys {κ : Type} [LinearOrder κ] (l : List κ) : List κ := l.foldr insertKey []

/-- Stable insertion into a descending-sorted list: an element goes before
the first strictly smaller key, so earlier list elements stay first on ties. -/
def insertDescBy {α : Type} (key : α → ℚ) (x : α) : List α → List α
  | [] => [x]
  | y :: ys => if key x ≥ key y then x :: y :: ys else y :: insertDescBy key x ys

/-- Stable descending sort by a rational key (ties keep original order, the
order `nlargest(…, keep='first')` uses). -/
def sortDescBy {α : Type} (key : α → ℚ) (l : List α) : List α :=
  l.foldr (insertDescBy key) []

/-- `DataFrame.nlargest(n, col, keep='first')` over non-`NaN` keys. -/
def nlargestBy {α : Type} (n : ℕ) (key : α → ℚ) (l : List α) : List α :=
  (sortDescBy key l).take n

/-! ## The record cleaner (`DataCleaner` in `data_cleaner.py`).

Every stage is a pair of a per-row transformation (the column assignments of
the source, which act row-wise) and a tally increment computed from the rows,
mirroring the method's `add_issue` call.  `add_issue` with a zero count equals
the source's `if count > 0: add_issue(…)` guard, since adding zero is the
identity. -/

/-- `_remove_duplicates` worker: `drop_duplicates(subset=['order_id'],
keep='first')`.  pandas treats two `NaN` keys as duplicates of each other,
as does equality on `Option String`. -/
def dedupRows (rows : List Row) : List Row := dedupByKey Row.order_id rows

/-- `_remove_duplicates`. -/
def remove_duplicates (rows : List Row) (t : DataQualityIssues) :
    List Row × DataQualityIssues :=
  let out := dedupRows rows
  (out, t.add_issue .duplicate_orders (rows.length - out.length))

/-- The invalid mask of `_clean_quantity`, applied after the `to_numeric`
coercion: `NaN`, below `MIN_QUANTITY`, or above `MAX_QUANTITY`. -/
def quantityInvalid (c : NumCell) : Bool :=
  match c.toNumeric with
  | some q => decide (q < MIN_QUANTITY) || decide (q > MAX_QUANTITY)
  | none => true

/-- `_clean_quantity` cell result: coerce to numeric, invalid values to `NaN`. -/
def cleanQuantityCell (c : NumCell) : NumCell :=
  match c.toNumeric with
  | some q => if quantityInvalid c then .null else .num q
  | none => .null

def quantityRow (r : Row) : Row := { r with quantity := cleanQuantityCell r.quantity }

/-- `_clean_quantity`. -/
def clean_quantity (rows : List Row) (t : DataQualityIssues) :
    List Row × DataQualityIssues :=
  (rows.map quantityRow,
   t.add_issue .invalid_quantity (rows.countP (fun r => quantityInvalid r.quantity)))

/-- The invalid mask of `_clean_price`: `NaN` or out of range. -/
def priceInvalid (p : Option ℚ) : Bool :=
  match p with
  | some q => decide (q < MIN_PRICE) || decide (q > MAX_PRICE)
  | none => true

/-- `_clean_price` cell result: invalid values to `NaN`. -/
def cleanPriceCell (p : Option ℚ) : Option ℚ :=
  if priceInvalid p then none else p

def priceRow (r : Row) : Row := { r with unit_price := cleanPriceCell r.unit_price }

/-- `_clean_price`. -/
def clean_price (rows : List Row) (t : DataQualityIssues) :
    List Row × DataQualityIssues :=
  (rows.map priceRow,
   t.add_issue .invalid_price (rows.countP (fun r => priceInvalid r.unit_price)))

/-- The invalid mask of `_clean_discount`: `NaN` or out of range. -/
def discountInvalid (d : Option ℚ) : Bool :=
  match d with
  | some q => decide (q < MIN_DISCOUNT) || decide (q > MAX_DISCOUNT)
  | none => true

/-- `_clean_discount` cell result: invalid values are repaired to 0. -/
def cleanDiscountCell (d : Option ℚ) : Option ℚ :=
  if discountInvalid d then some 0 else d

def discountRow (r : Row) : Row :=
  { r with discount_percent := cleanDiscountCell r.discount_percent }

/-- `_clean_discount`. -/
def clean_discount (rows : List Row) (t : DataQualityIssues) :
    List Row × DataQualityIssues :=
  (rows.map discountRow,
   t.add_issue .invalid_discount (rows.countP (fun r => discountInvalid r.discount_percent)))

/-- First format of `DATE_FORMATS` that parses the string, in priority order. -/
def firstParse : List DateFmt → String → Option Date
  | [], _ => none
  | f :: fs, s =>
    match parseFormat f s with
    | some d => some d
    | none => firstParse fs s

/-- The per-row result of `_clean_dates`' format loop: `NaT` stays `NaT`, an
already-parsed datetime passes through `pd.to_datetime` unchanged on the first
format, and a string gets the first format that parses it. -/
def parseDateCell (c : DateCell) : Option Date :=
  match c with
  | .null => none
  | .date d => some d
  | .text s => firstParse DATE_FORMATS s

def dateRow (r : Row) : Row :=
  { r with sale_date :=
      match parseDateCell r.sale_date with
      | some d => .date d
      | none => .null }

/-- `_clean_dates`: the final `sale_date_parsed.isna()` count includes rows
whose `sale_date` was already `NaN`. -/
def clean_dates (rows : List Row) (t : DataQualityIssues) :
    List Row × DataQualityIssues :=
  (rows.map dateRow,
   t.add_issue .invalid_date (rows.countP (fun r => (parseDateCell r.sale_date).isNone)))

/-- `_normalize_region` cell result: on a synonym-table hit replace with the
canonical label, otherwise (`fillna`) keep the original value. -/
def normalizeRegionVal (x : Option String) : Option String :=
  match x with
  | none => none
  | some s =>
    match lookupStr REGION_MAPPING (normKey s) with
    | some c => some c
    | none => some s

/-- The `normalized_regions` count condition: mapping hit and the original
value differs from the canonical label. -/
def regionChanged (x : Option String) : Bool :=
  match x with
  | none => false
  | some s =>
    match lookupStr REGION_MAPPING (normKey s) with
    | some c => decide (s ≠ c)
    | none => false

def regionRow (r : Row) : Row := { r with region := normalizeRegionVal r.region }

/-- `_normalize_region`. -/
def normalize_region (rows : List Row) (t : DataQualityIssues) :
    List Row × DataQualityIssues :=
  (rows.map regionRow,
   t.add_issue .normalized_regions (rows.countP (fun r => regionChanged r.region)))

/-- `_normalize_category` cell result. -/
def normalizeCategoryVal (x : Option String) : Option String :=
  match x with
  | none => none
  | some s =>
    match lookupStr CATEGORY_MAPPING (normKey s) with
    | some c => some c
    | none => some s

def categoryChanged (x : Option String) : Bool :=
  match x with
  | none => false
  | some s =>
    match lookupStr CATEGORY_MAPPING (normKey s) with
    | some c => decide (s ≠ c)
    | none => false

def categoryRow (r : Row) : Row := { r with category := normalizeCategoryVal r.category }

/-- `_normalize_category`. -/
def normalize_category (rows : List Row) (t : DataQualityIssues) :
    List Row × DataQualityIssues :=
  (rows.map categoryRow,
   t.add_issue .normalized_categories (rows.countP (fun r => categoryChanged r.category)))

/-- `_calculate_revenue` cell result:
`(quantity * unit_price * (1 - discount_percent/100)).round(2)`, with `NaN`
propagating through the arithmetic. -/
def revenueVal (q : NumCell) (p d : Option ℚ) : Option ℚ :=
  match q, p, d with
  | .num qv, some pv, some dv => some (round2 (qv * pv * (1 - dv / 100)))
  | _, _, _ => none

def revenueRow (r : Row) : Row :=
  { r with revenue := revenueVal r.quantity r.unit_price r.discount_percent }

/-- `_calculate_revenue` (no tally increment in the source). -/
def calculate_revenue (rows : List Row) (t : DataQualityIssues) :
    List Row × DataQualityIssues :=
  (rows.map revenueRow, t)

/-- The `dropna(subset=critical_fields)` keep-condition of
`_handle_missing_values`: none of `order_id, quantity, unit_price, sale_date`
is missing. -/
def criticalsPresent (r : Row) : Bool :=
  !r.order_id.isNone && !r.quantity.isNA && !r.unit_price.isNone && !r.sale_date.isNA

/-- `_handle_missing_values`. -/
def handle_missing_values (rows : List Row) (t : DataQualityIssues) :
    List Row × DataQualityIssues :=
  let out := rows.filter criticalsPresent
  (out, t.add_issue .missing_values (rows.length - out.length))

/-- `DataCleaner.clean_chunk`: the full rule pipeline in source order, with
`total_rows_processed` counted before and `total_rows_cleaned` after.
(`df.copy()` and the in-place mutation discipline are modelled separately by
`clean_chunk_heap`.) -/
def clean_chunk (df : List Row) (t : DataQualityIssues) :
    List Row × DataQualityIssues :=
  let t0 := t.add_issue .total_rows_processed df.length
  let s1 := remove_duplicates df t0
  let s2 := clean_quantity s1.1 s1.2
  let s3 := clean_price s2.1 s2.2
  let s4 := clean_discount s3.1 s3.2
  let s5 := clean_dates s4.1 s4.2
  let s6 := normalize_region s5.1 s5.2
  let s7 := normalize_category s6.1 s6.2
  let s8 := calculate_revenue s7.1 s7.2
  let s9 := handle_missing_values s8.1 s8.2
  (s9.1, s9.2.add_issue .total_rows_cleaned s9.1.length)

/-! ## The streaming aggregator (`DataAggregator` in `aggregator.py`). -/

/-- `df['sale_date'].dt.to_period('M')` for one row, encoded as
`year * 100 + month` (injective and ordered like the period / its
`"YYYY-MM"` rendering); `NaT` gives `none` and is dropped by `groupby`. -/
def rowYearMonth (r : Row) : Option ℕ :=
  match r.sale_date with
  | .date d => some (d.year * 100 + d.month)
  | _ => none

/-- pandas column sum with `skipna=True` over the `quantity` cells. -/
def quantityOf (r : Row) : Option ℚ := r.quantity.toNumeric

/-- One row of a per-chunk monthly summary (`monthly_chunk` in
`process_chunk`): revenue and quantity sums skip `NaN`; the discount mean is
`NaN` (`none`) when every discount in the group is `NaN`. -/
structure MonthlyRow where
  year_month : ℕ
  total_revenue : ℚ
  total_quantity : ℚ
  avg_discount : Option ℚ
deriving DecidableEq, Repr

/-- `df.groupby('year_month').agg({'revenue': 'sum', 'quantity': 'sum',
'discount_percent': 'mean'})`, one output row per month in ascending order. -/
def monthly_chunk (rows : List Row) : List MonthlyRow :=
  (sortedKeys (rows.filterMap rowYearMonth)).map fun m =>
    let grp := rows.filter (fun r => rowYearMonth r = some m)
    { year_month := m,
      total_revenue := (grp.filterMap Row.revenue).sum,
      total_quantity := (grp.filterMap quantityOf).sum,
      avg_discount := listMean (grp.filterMap Row.discount_percent) }

/-- `df.groupby('product_name').agg({'revenue': 'sum', 'quantity': 'sum'})`:
`(product, revenue sum, quantity sum)` per product in ascending name order;
rows with `NaN` product name are dropped by `groupby`. -/
def product_chunk (rows : List Row) : List (String × ℚ × ℚ) :=
  (sortedKeys (rows.filterMap Row.product_name)).map fun p =>
    let grp := rows.filter (fun r => r.product_name = some p)
    (p, (grp.filterMap Row.revenue).sum, (grp.filterMap quantityOf).sum)

/-- `d[k] = d.get(k, 0) + v` on an insertion-ordered Python dict. -/
def dictAdd (m : List (String × ℚ)) (k : String) (v : ℚ) : List (String × ℚ) :=
  match m with
  | [] => [(k, v)]
  | (k', v') :: rest => if k = k' then (k', v' + v) :: rest else (k', v') :: dictAdd rest k v

/-- The aggregator's accumulators (`DataAggregator.__init__`). -/
structure DataAggregator where
  monthly_sales : List (List MonthlyRow)
  product_revenue : List (String × ℚ)
  product_units : List (String × ℚ)
  all_records : List (List Row)
deriving DecidableEq, Repr

def initAggregator : DataAggregator := ⟨[], [], [], []⟩

/-- `DataAggregator.process_chunk`: append the chunk's monthly summary, fold
the chunk's per-product sums into the running dicts, and append the chunk's
top-1000-by-revenue rows to the candidate pool. -/
def process_chunk (agg : DataAggregator) (df : List Row) : DataAggregator :=
  let prods := product_chunk df
  { monthly_sales := agg.monthly_sales ++ [monthly_chunk df],
    product_revenue := prods.foldl (fun m pc => dictAdd m pc.1 pc.2.1) agg.product_revenue,
    product_units := prods.foldl (fun m pc => dictAdd m pc.1 pc.2.2) agg.product_units,
    all_records := agg.all_records ++
      [nlargestBy 1000 (fun r => r.revenue.getD 0) (df.filter (fun r => r.revenue.isSome))] }

/-- One row of the final monthly summary (revenue and discount rounded to two
decimals, quantity cast to `int`). -/
structure FinalMonthlyRow where
  year_month : ℕ
  total_revenue : ℚ
  total_quantity : ℤ
  avg_discount : Option ℚ
deriving DecidableEq, Repr

/-- `DataAggregator.get_monthly_sales_summary`: concat all per-chunk
summaries, re-group by month (sums add, per-chunk discount means are combined
by an unweighted mean), round, and sort ascending by month. -/
def get_monthly_sales_summary (agg : DataAggregator) : List FinalMonthlyRow :=
  if agg.monthly_sales = [] then []
  else
    let combined := agg.monthly_sales.flatten
    (sortedKeys (combined.map MonthlyRow.year_month)).map fun m =>
      let grp := combined.filter (fun x => x.year_month = m)
      { year_month := m,
        total_revenue := round2 ((grp.map MonthlyRow.total_revenue).sum),
        total_quantity := intTrunc ((grp.map MonthlyRow.total_quantity).sum),
        avg_discount := (listMean (grp.filterMap MonthlyRow.avg_discount)).map round2 }

/-- One row of the final top-products report. -/
structure TopProductRow where
  product_name : String
  total_revenue : ℚ
  total_units_sold : ℤ
  rank_by : String
deriving DecidableEq, Repr

/-- `DataAggregator.get_top_products`: build the products table in dict order,
take top-n by revenue and top-n by units (each tagged with `rank_by`), concat,
de-duplicate by product keeping the first (revenue-tagged) occurrence, round,
and sort descending by revenue.  (pandas' final unstable `sort_values` agrees
with the stable model except on revenue ties.) -/
def get_top_products (top_n : ℕ) (agg : DataAggregator) : List TopProductRow :=
  if agg.product_revenue = [] then []
  else
    let products : List (String × ℚ × ℚ) := agg.product_revenue.map fun pv =>
      (pv.1, pv.2, ((agg.product_units.lookup pv.1).getD 0))
    let topRev := (nlargestBy top_n (fun x => x.2.1) products).map fun x => (x, ("revenue"))
    let topUnits := (nlargestBy top_n (fun x => x.2.2) products).map fun x => (x, ("units"))
    let deduped := dedupByKey (fun x => x.1.1) (topRev ++ topUnits)
    let final := deduped.map fun x =>
      { product_name := x.1.1,
        total_revenue := round2 x.1.2.1,
        total_units_sold := intTrunc x.1.2.2,
        rank_by := x.2 }
    sortDescBy TopProductRow.total_revenue final

/-- Zero-pad a natural number to two digits. -/
def pad2 (n : ℕ) : String := if n < 10 then "0" ++ toString n else toString n

/-- Zero-pad a year to four digits. -/
def pad4 (n : ℕ) : String :=
  if n < 10 then "000" ++ toString n
  else if n < 100 then "00" ++ toString n
  else if n < 1000 then "0" ++ toString n
  else toString n

/-- `strftime('%Y-%m-%d')`. -/
def dateISO (d : Date) : String := pad4 d.year ++ "-" ++ pad2 d.month ++ "-" ++ pad2 d.day

/-- One row of the anomaly report: the cleaned record with its date rendered
as an ISO calendar string. -/
structure AnomalyRow where
  order_id : Option String
  product_name : Option String
  category : Option String
  quantity : NumCell
  unit_price : Option ℚ
  discount_percent : Option ℚ
  region : Option String
  sale_date : Option String
  revenue : Option ℚ
deriving DecidableEq, Repr

def anomalyOfRow (r : Row) : AnomalyRow :=
  { order_id := r.order_id,
    product_name := r.product_name,
    category := r.category,
    quantity := r.quantity,
    unit_price := r.unit_price,
    discount_percent := r.discount_percent,
    region := r.region,
    sale_date :=
      match r.sale_date with
      | .date d => some (dateISO d)
      | _ => none,
    revenue := r.revenue }

/-- `DataAggregator.get_anomaly_records`: global top-n by revenue over the
whole candidate pool, dates rendered ISO. -/
def get_anomaly_records (top_n : ℕ) (agg : DataAggregator) : List AnomalyRow :=
  if agg.all_records = [] then []
  else
    let combined := agg.all_records.flatten
    (nlargestBy top_n (fun r => r.revenue.getD 0)
        (combined.filter (fun r => r.revenue.isSome))).map anomalyOfRow

/-! ## The orchestrator (`DataPipeline` in `pipeline.py`). -/

/-- One iteration of `_process_chunks`' loop: clean the chunk, and absorb the
cleaned chunk only when it is non-empty. -/
def pipelineStep (st : DataQualityIssues × DataAggregator) (chunk : List Row) :
    DataQualityIssues × DataAggregator :=
  let c := clean_chunk chunk st.1
  (c.2, if c.1.length > 0 then process_chunk st.2 c.1 else st.2)

/-- `DataPipeline._process_chunks` over the reader's chunk sequence, from the
freshly initialized cleaner and aggregator. -/
def process_chunks (chunks : List (List Row)) : DataQualityIssues × DataAggregator :=
  chunks.foldl pipelineStep (initIssues, initAggregator)

/-- `rows_removed` as derived in `_generate_quality_report`. -/
def rows_removed (q : DataQualityIssues) : ℕ :=
  q.total_rows_processed - q.total_rows_cleaned

/-- `data_quality_score` as derived in `_generate_quality_report`:
`round((cleaned / processed * 100) if processed > 0 else 0, 2)`. -/
def data_quality_score (q : DataQualityIssues) : ℚ :=
  round2 (if 0 < q.total_rows_processed then
            (q.total_rows_cleaned : ℚ) / (q.total_rows_processed : ℚ) * 100
          else 0)

/-! ## A store model of `clean_chunk`'s mutation discipline.

`clean_chunk` receives the caller's DataFrame by reference, takes `df.copy()`
(line 75), and every in-place column mutation afterwards targets the copy
(`_remove_duplicates` and `dropna` return fresh frames, the other helpers
mutate their argument in place and return it).  To state the frame property
the frames live in an explicit store of numbered cells. -/

/-- A store of allocated DataFrames, addressed by index. -/
structure PdHeap where
  cells : List (List Row)
deriving DecidableEq, Repr

def PdHeap.read (h : PdHeap) (r : ℕ) : List Row := h.cells.getD r []

/-- Allocate a fresh frame; returns the extended store and the new reference. -/
def PdHeap.alloc (h : PdHeap) (v : List Row) : PdHeap × ℕ :=
  (⟨h.cells ++ [v]⟩, h.cells.length)

/-- Mutate the frame at a reference in place. -/
def PdHeap.write (h : PdHeap) (r : ℕ) (v : List Row) : PdHeap :=
  ⟨h.cells.set r v⟩

/-- `DataCleaner.clean_chunk` with its aliasing made explicit: `df` is the
caller's reference; `df.copy()` and the frame-returning helpers allocate,
the column-assigning helpers write in place to the current `df_clean`
reference.  Returns the final store, the reference to the returned cleaned
frame, and the tally. -/
def clean_chunk_heap (h : PdHeap) (df : ℕ) (t : DataQualityIssues) :
    PdHeap × ℕ × DataQualityIssues :=
  let t0 := t.add_issue .total_rows_processed (h.read df).length
  let a1 := h.alloc (h.read df)
  let s1 := remove_duplicates (a1.1.read a1.2) t0
  let a2 := a1.1.alloc s1.1
  let h2 := a2.1
  let c2 := a2.2
  let s2 := clean_quantity (h2.read c2) s1.2
  let h3 := h2.write c2 s2.1
  let s3 := clean_price (h3.read c2) s2.2
  let h4 := h3.write c2 s3.1
  let s4 := clean_discount (h4.read c2) s3.2
  let h5 := h4.write c2 s4.1
  let s5 := clean_dates (h5.read c2) s4.2
  let h6 := h5.write c2 s5.1
  let s6 := normalize_region (h6.read c2) s5.2
  let h7 := h6.write c2 s6.1
  let s7 := normalize_category (h7.read c2) s6.2
  let h8 := h7.write c2 s7.1
  let s8 := calculate_revenue (h8.read c2) s7.2
  let h9 := h8.write c2 s8.1
  let s9 := handle_missing_values (h9.read c2) s8.2
  let a3 := h9.alloc s9.1
  (a3.1, a3.2, s9.2.add_issue .total_rows_cleaned s9.1.length)

/-! ## Structural lemmas about the cleaning pipeline. -/

/-- The per-row composition of the cleaning stages that follow deduplication. -/
def rowPipeline (r : Row) : Row :=
  revenueRow (categoryRow (regionRow (dateRow (discountRow (priceRow (quantityRow r))))))

@[simp] theorem rowPipeline_order_id (r : Row) : (rowPipeline r).order_id = r.order_id := rfl

@[simp] theorem rowPipeline_product_name (r : Row) :
    (rowPipeline r).product_name = r.product_name := rfl

@[simp] theorem rowPipeline_category (r : Row) :
    (rowPipeline r).category = normalizeCategoryVal r.category := rfl

@[simp] theorem rowPipeline_quantity (r : Row) :
    (rowPipeline r).quantity = cleanQuantityCell r.quantity := rfl

@[simp] theorem rowPipeline_unit_price (r : Row) :
    (rowPipeline r).unit_price = cleanPriceCell r.unit_price := rfl

@[simp] theorem rowPipeline_discount (r : Row) :
    (rowPipeline r).discount_percent = cleanDiscountCell r.discount_percent := rfl

@[simp] theorem rowPipeline_region (r : Row) :
    (rowPipeline r).region = normalizeRegionVal r.region := rfl

@[simp] theorem rowPipeline_sale_date (r : Row) :
    (rowPipeline r).sale_date =
      (match parseDateCell r.sale_date with
       | some d => DateCell.date d
       | none => DateCell.null) := rfl

@[simp] theorem rowPipeline_revenue (r : Row) :
    (rowPipeline r).revenue =
      revenueVal (cleanQuantityCell r.quantity) (cleanPriceCell r.unit_price)
        (cleanDiscountCell r.discount_percent) := rfl

/-- `clean_chunk`'s cleaned rows are: dedup, then the per-row stage pipeline,
then the critical-field filter. -/
theorem clean_chunk_rows (B : List Row) (t : DataQualityIssues) :
    (clean_chunk B t).1 = ((dedupRows B).map rowPipeline).filter criticalsPresent := by
  simp only [clean_chunk, remove_duplicates, clean_quantity, clean_price, clean_discount,
    clean_dates, normalize_region, normalize_category, calculate_revenue,
    handle_missing_values, List.map_map]
  rfl

/-- A cleaned quantity cell is `NaN` or an in-range number. -/
theorem cleanQuantityCell_cases (c : NumCell) :
    cleanQuantityCell c = .null ∨
    ∃ q, cleanQuantityCell c = .num q ∧ MIN_QUANTITY ≤ q ∧ q ≤ MAX_QUANTITY := by
  unfold cleanQuantityCell quantityInvalid
  cases h : c.toNumeric with
  | none => exact Or.inl rfl
  | some q =>
    by_cases h1 : q < MIN_QUANTITY
    · simp [h1]
    · by_cases h2 : q > MAX_QUANTITY
      · simp [h1, h2]
      · exact Or.inr ⟨q, by simp [h1, h2], le_of_not_lt h1, le_of_not_lt h2⟩

/-- A cleaned price cell is `NaN` or an in-range number. -/
theorem cleanPriceCell_cases (p : Option ℚ) :
    cleanPriceCell p = none ∨
    ∃ q, cleanPriceCell p = some q ∧ MIN_PRICE ≤ q ∧ q ≤ MAX_PRICE := by
  unfold cleanPriceCell priceInvalid
  cases p with
  | none => simp
  | some q =>
    by_cases h1 : q < MIN_PRICE
    · simp [h1]
    · by_cases h2 : q > MAX_PRICE
      · simp [h1, h2]
      · exact Or.inr ⟨q, by simp [h1, h2], le_of_not_lt h1, le_of_not_lt h2⟩

/-- A cleaned discount cell is always present and in range. -/
theorem cleanDiscountCell_spec (d : Option ℚ) :
    ∃ q, cleanDiscountCell d = some q ∧ MIN_DISCOUNT ≤ q ∧ q ≤ MAX_DISCOUNT := by
  unfold cleanDiscountCell discountInvalid
  cases d with
  | none =>
    refine ⟨0, by simp, le_refl _, ?_⟩
    norm_num [MIN_DISCOUNT, MAX_DISCOUNT]
  | some q =>
    by_cases h1 : q < MIN_DISCOUNT
    · refine ⟨0, by simp [h1], le_refl _, ?_⟩
      norm_num [MIN_DISCOUNT, MAX_DISCOUNT]
    · by_cases h2 : q > MAX_DISCOUNT
      · refine ⟨0, by simp [h1, h2], le_refl _, ?_⟩
        norm_num [MIN_DISCOUNT, MAX_DISCOUNT]
      · exact ⟨q, by simp [h1, h2], le_of_not_lt h1, le_of_not_lt h2⟩

/-- In-range quantities are invariant under `cleanQuantityCell`, and not
counted invalid. -/
theorem cleanQuantityCell_fixed {q : ℚ} (h1 : MIN_QUANTITY ≤ q) (h2 : q ≤ MAX_QUANTITY) :
    cleanQuantityCell (.num q) = .num q ∧ quantityInvalid (.num q) = false := by
  unfold cleanQuantityCell quantityInvalid NumCell.toNumeric
  simp [not_lt_of_le h1, not_lt_of_le h2]

theorem cleanPriceCell_fixed {q : ℚ} (h1 : MIN_PRICE ≤ q) (h2 : q ≤ MAX_PRICE) :
    cleanPriceCell (some q) = some q ∧ priceInvalid (some q) = false := by
  unfold cleanPriceCell priceInvalid
  simp [not_lt_of_le h1, not_lt_of_le h2]

theorem cleanDiscountCell_fixed {q : ℚ} (h1 : MIN_DISCOUNT ≤ q) (h2 : q ≤ MAX_DISCOUNT) :
    cleanDiscountCell (some q) = some q ∧ discountInvalid (some q) = false := by
  unfold cleanDiscountCell discountInvalid
  simp [not_lt_of_le h1, not_lt_of_le h2]

/-- A successful association-list lookup returns one of the table's values. -/
theorem lookupStr_mem {m : List (String × String)} {k v : String}
    (h : lookupStr m k = some v) : v ∈ m.map Prod.snd := by
  induction m with
  | nil => simp [lookupStr] at h
  | cons hd tl ih =>
    rw [lookupStr] at h
    by_cases hk : k = hd.1
    · simp [hk] at h
      simp [← h]
    · simp [hk] at h
      simp [ih h]

/-- Every canonical region label looks itself up to itself. -/
theorem region_canon :
    ∀ v ∈ REGION_MAPPING.map Prod.snd, lookupStr REGION_MAPPING (normKey v) = some v := by
  decide

/-- Every canonical category label looks itself up to itself. -/
theorem category_canon :
    ∀ v ∈ CATEGORY_MAPPING.map Prod.snd, lookupStr CATEGORY_MAPPING (normKey v) = some v := by
  decide

/-- Region normalization reaches a fixed point after one application, and a
normalized value is never counted as changed. -/
theorem normalizeRegionVal_fixed (x : Option String) :
    normalizeRegionVal (normalizeRegionVal x) = normalizeRegionVal x ∧
    regionChanged (normalizeRegionVal x) = false := by
  unfold normalizeRegionVal regionChanged
  cases x with
  | none => simp
  | some s =>
    cases h : lookupStr REGION_MAPPING (normKey s) with
    | none => simp [h]
    | some c =>
      have hc := region_canon c (lookupStr_mem h)
      simp [h, hc]

theorem normalizeCategoryVal_fixed (x : Option String) :
    normalizeCategoryVal (normalizeCategoryVal x) = normalizeCategoryVal x ∧
    categoryChanged (normalizeCategoryVal x) = false := by
  unfold normalizeCategoryVal categoryChanged
  cases x with
  | none => simp
  | some s =>
    cases h : lookupStr CATEGORY_MAPPING (normKey s) with
    | none => simp [h]
    | some c =>
      have hc := category_canon c (lookupStr_mem h)
      simp [h, hc]

/-- Rows surviving deduplication carry keys outside `seen`. -/
theorem dedupByKeyAux_key_notMem {α κ : Type} [DecidableEq κ] (key : α → κ)
    (l : List α) : ∀ seen, ∀ x ∈ dedupByKeyAux key seen l, key x ∉ seen := by
  induction l with
  | nil => intro seen x hx; simp [dedupByKeyAux] at hx
  | cons hd tl ih =>
    intro seen x hx
    rw [dedupByKeyAux] at hx
    by_cases hmem : key hd ∈ seen
    · rw [if_pos hmem] at hx
      exact ih seen x hx
    · rw [if_neg hmem] at hx
      rcases List.mem_cons.mp hx with rfl | h
      · exact hmem
      · intro hs
        exact ih (key hd :: seen) x h (List.mem_cons_of_mem _ hs)

/-- Deduplicated rows have pairwise distinct keys. -/
theorem dedupByKeyAux_pairwise {α κ : Type} [DecidableEq κ] (key : α → κ)
    (l : List α) : ∀ seen, (dedupByKeyAux key seen l).Pairwise (fun a b => key a ≠ key b) := by
  induction l with
  | nil => intro seen; simp [dedupByKeyAux]
  | cons hd tl ih =>
    intro seen
    rw [dedupByKeyAux]
    by_cases hmem : key hd ∈ seen
    · rw [if_pos hmem]; exact ih seen
    · rw [if_neg hmem]
      refine List.Pairwise.cons ?_ (ih (key hd :: seen))
      intro b hb heq
      exact dedupByKeyAux_key_notMem key tl (key hd :: seen) b hb (heq ▸ List.mem_cons_self _ _)

theorem dedupByKey_pairwise {α κ : Type} [DecidableEq κ] (key : α → κ) (l : List α) :
    (dedupByKey key l).Pairwise (fun a b => key a ≠ key b) :=
  dedupByKeyAux_pairwise key l []

/-- Deduplication is the identity on key-distinct lists. -/
theorem dedupByKeyAux_eq_self {α κ : Type} [DecidableEq κ] (key : α → κ) (l : List α) :
    ∀ seen, (∀ x ∈ l, key x ∉ seen) → l.Pairwise (fun a b => key a ≠ key b) →
      dedupByKeyAux key seen l = l := by
  induction l with
  | nil => intro seen _ _; rfl
  | cons hd tl ih =>
    intro seen hseen hpw
    rw [dedupByKeyAux, if_neg (hseen hd (List.mem_cons_self _ _))]
    rw [List.pairwise_cons] at hpw
    refine congrArg _ (ih (key hd :: seen) ?_ hpw.2)
    intro x hx hmem
    rcases List.mem_cons.mp hmem with heq | h
    · exact hpw.1 x hx heq.symm
    · exact hseen x (List.mem_cons_of_mem _ hx) h

theorem dedupByKey_eq_self {α κ : Type} [DecidableEq κ] {key : α → κ} {l : List α}
    (h : l.Pairwise (fun a b => key a ≠ key b)) : dedupByKey key l = l :=
  dedupByKeyAux_eq_self key l [] (by simp) h

/-- Deduplication yields a sublist (order preserved, rows only removed). -/
theorem dedupByKeyAux_sublist {α κ : Type} [DecidableEq κ] (key : α → κ) (l : List α) :
    ∀ seen, (dedupByKeyAux key seen l).Sublist l := by
  induction l with
  | nil => intro seen; simp [dedupByKeyAux]
  | cons hd tl ih =>
    intro seen
    rw [dedupByKeyAux]
    by_cases hmem : key hd ∈ seen
    · rw [if_pos hmem]; exact (ih seen).cons _
    · rw [if_neg hmem]; exact (ih _).cons₂ _

theorem dedupByKey_sublist {α κ : Type} [DecidableEq κ] (key : α → κ) (l : List α) :
    (dedupByKey key l).Sublist l :=
  dedupByKeyAux_sublist key l []

theorem dedupByKey_length_le {α κ : Type} [DecidableEq κ] (key : α → κ) (l : List α) :
    (dedupByKey key l).length ≤ l.length :=
  (dedupByKey_sublist key l).length_le

/-- The cleaned output of a chunk has pairwise distinct `order_id` keys. -/
theorem clean_chunk_pairwise_ids (B : List Row) (t : DataQualityIssues) :
    ((clean_chunk B t).1).Pairwise (fun a b => a.order_id ≠ b.order_id) := by
  rw [clean_chunk_rows]
  refine List.Pairwise.filter _ ?_
  rw [List.pairwise_map]
  simpa using dedupByKey_pairwise Row.order_id B


theorem quantityRow_fixed {r : Row} (h : cleanQuantityCell r.quantity = r.quantity) :
    quantityRow r = r := by
  unfold quantityRow
  rw [h]

theorem priceRow_fixed {r : Row} (h : cleanPriceCell r.unit_price = r.unit_price) :
    priceRow r = r := by
  unfold priceRow
  rw [h]

theorem discountRow_fixed {r : Row}
    (h : cleanDiscountCell r.discount_percent = r.discount_percent) : discountRow r = r := by
  unfold discountRow
  rw [h]

theorem dateRow_fixed {r : Row} {d : Date} (h : r.sale_date = DateCell.date d) :
    dateRow r = r := by
  unfold dateRow
  rw [h]
  show { r with sale_date := DateCell.date d } = r
  rw [← h]

theorem regionRow_fixed {r : Row} (h : normalizeRegionVal r.region = r.region) :
    regionRow r = r := by
  unfold regionRow
  rw [h]

theorem categoryRow_fixed {r : Row} (h : normalizeCategoryVal r.category = r.category) :
    categoryRow r = r := by
  unfold categoryRow
  rw [h]

theorem revenueRow_fixed {r : Row}
    (h : revenueVal r.quantity r.unit_price r.discount_percent = r.revenue) :
    revenueRow r = r := by
  unfold revenueRow
  rw [h]

/-- `revenueRow` is idempotent outright: it recomputes `revenue` from fields
it does not modify. -/
theorem revenueRow_rowPipeline (r0 : Row) : revenueRow (rowPipeline r0) = rowPipeline r0 :=
  revenueRow_fixed rfl

/-- A row that survived the pipeline's critical-field filter is left untouched
by every cleaning stage, and trips none of the issue counters. -/
theorem clean_row_stage_fixed (r0 : Row) (h : criticalsPresent (rowPipeline r0) = true) :
    quantityRow (rowPipeline r0) = rowPipeline r0 ∧
    priceRow (rowPipeline r0) = rowPipeline r0 ∧
    discountRow (rowPipeline r0) = rowPipeline r0 ∧
    dateRow (rowPipeline r0) = rowPipeline r0 ∧
    regionRow (rowPipeline r0) = rowPipeline r0 ∧
    categoryRow (rowPipeline r0) = rowPipeline r0 ∧
    revenueRow (rowPipeline r0) = rowPipeline r0 ∧
    quantityInvalid (rowPipeline r0).quantity = false ∧
    priceInvalid (rowPipeline r0).unit_price = false ∧
    discountInvalid (rowPipeline r0).discount_percent = false ∧
    ((parseDateCell (rowPipeline r0).sale_date).isNone = false) ∧
    regionChanged (rowPipeline r0).region = false ∧
    categoryChanged (rowPipeline r0).category = false := by
  simp only [criticalsPresent, Bool.and_eq_true, Bool.not_eq_true'] at h
  obtain ⟨⟨⟨hid, hqna⟩, hpna⟩, hdna⟩ := h
  have hq : ∃ q, (rowPipeline r0).quantity = .num q ∧ MIN_QUANTITY ≤ q ∧ q ≤ MAX_QUANTITY := by
    rcases cleanQuantityCell_cases r0.quantity with hnull | ⟨q, hEq, h1, h2⟩
    · rw [rowPipeline_quantity, hnull] at hqna
      simp [NumCell.isNA] at hqna
    · exact ⟨q, by rw [rowPipeline_quantity, hEq], h1, h2⟩
  obtain ⟨q, hqEq, hq1, hq2⟩ := hq
  have hqfix := cleanQuantityCell_fixed hq1 hq2
  have hp : ∃ p, (rowPipeline r0).unit_price = some p ∧ MIN_PRICE ≤ p ∧ p ≤ MAX_PRICE := by
    rcases cleanPriceCell_cases r0.unit_price with hnone | ⟨p, hEq, h1, h2⟩
    · rw [rowPipeline_unit_price, hnone] at hpna
      simp at hpna
    · exact ⟨p, by rw [rowPipeline_unit_price, hEq], h1, h2⟩
  obtain ⟨p, hpEq, hp1, hp2⟩ := hp
  have hpfix := cleanPriceCell_fixed hp1 hp2
  obtain ⟨dv, hdEq0, hd1, hd2⟩ := cleanDiscountCell_spec r0.discount_percent
  have hdEq : (rowPipeline r0).discount_percent = some dv := by
    rw [rowPipeline_discount, hdEq0]
  have hdfix := cleanDiscountCell_fixed hd1 hd2
  have hdate : ∃ d, (rowPipeline r0).sale_date = .date d := by
    rcases hpd : parseDateCell r0.sale_date with _ | d
    · rw [rowPipeline_sale_date, hpd] at hdna
      simp [DateCell.isNA] at hdna
    · exact ⟨d, by simp [rowPipeline_sale_date, hpd]⟩
  obtain ⟨d, hdateEq⟩ := hdate
  have hreg := normalizeRegionVal_fixed r0.region
  have hcat := normalizeCategoryVal_fixed r0.category
  refine ⟨?_, ?_, ?_, ?_, ?_, ?_, revenueRow_rowPipeline r0, ?_, ?_, ?_, ?_, ?_, ?_⟩
  · exact quantityRow_fixed (by rw [hqEq]; exact hqfix.1)
  · exact priceRow_fixed (by rw [hpEq]; exact hpfix.1)
  · exact discountRow_fixed (by rw [hdEq]; exact hdfix.1)
  · exact dateRow_fixed hdateEq
  · exact regionRow_fixed (by rw [rowPipeline_region]; exact hreg.1)
  · exact categoryRow_fixed (by rw [rowPipeline_category]; exact hcat.1)
  · rw [hqEq]; exact hqfix.2
  · rw [hpEq]; exact hpfix.2
  · rw [hdEq]; exact hdfix.2
  · rw [hdateEq]; rfl
  · rw [rowPipeline_region]; exact hreg.2
  · rw [rowPipeline_category]; exact hcat.2

theorem add_issue_zero (t : DataQualityIssues) (ty : IssueType) : t.add_issue ty 0 = t := by
  cases ty <;> rfl

theorem map_eq_self_of {α : Type} (f : α → α) (l : List α) (h : ∀ x ∈ l, f x = x) :
    l.map f = l := by
  induction l with
  | nil => rfl
  | cons hd tl ih =>
    rw [List.map_cons, h hd (List.mem_cons_self _ _), ih (fun x hx => h x (List.mem_cons_of_mem _ hx))]

/-- `clean_chunk` on a batch of already-clean, key-distinct rows: the rows
come back unchanged and only the two row counters move. -/
theorem clean_chunk_of_clean (B : List Row) (t : DataQualityIssues)
    (hpair : B.Pairwise (fun a b => a.order_id ≠ b.order_id))
    (hfix : ∀ r ∈ B,
      quantityRow r = r ∧ priceRow r = r ∧ discountRow r = r ∧ dateRow r = r ∧
      regionRow r = r ∧ categoryRow r = r ∧ revenueRow r = r)
    (hcnt : ∀ r ∈ B,
      quantityInvalid r.quantity = false ∧ priceInvalid r.unit_price = false ∧
      discountInvalid r.discount_percent = false ∧
      (parseDateCell r.sale_date).isNone = false ∧
      regionChanged r.region = false ∧ categoryChanged r.category = false ∧
      criticalsPresent r = true) :
    clean_chunk B t =
      (B, { t with total_rows_processed := t.total_rows_processed + B.length,
                   total_rows_cleaned := t.total_rows_cleaned + B.length }) := by
  have hded : dedupRows B = B := dedupByKey_eq_self hpair
  have hm1 : B.map quantityRow = B := map_eq_self_of _ _ (fun r hr => (hfix r hr).1)
  have hm2 : B.map priceRow = B := map_eq_self_of _ _ (fun r hr => (hfix r hr).2.1)
  have hm3 : B.map discountRow = B := map_eq_self_of _ _ (fun r hr => (hfix r hr).2.2.1)
  have hm4 : B.map dateRow = B := map_eq_self_of _ _ (fun r hr => (hfix r hr).2.2.2.1)
  have hm5 : B.map regionRow = B := map_eq_self_of _ _ (fun r hr => (hfix r hr).2.2.2.2.1)
  have hm6 : B.map categoryRow = B := map_eq_self_of _ _ (fun r hr => (hfix r hr).2.2.2.2.2.1)
  have hm7 : B.map revenueRow = B := map_eq_self_of _ _ (fun r hr => (hfix r hr).2.2.2.2.2.2)
  have hc1 : B.countP (fun r => quantityInvalid r.quantity) = 0 :=
    List.countP_eq_zero.mpr (fun r hr => by simp [(hcnt r hr).1])
  have hc2 : B.countP (fun r => priceInvalid r.unit_price) = 0 :=
    List.countP_eq_zero.mpr (fun r hr => by simp [(hcnt r hr).2.1])
  have hc3 : B.countP (fun r => discountInvalid r.discount_percent) = 0 :=
    List.countP_eq_zero.mpr (fun r hr => by simp [(hcnt r hr).2.2.1])
  have hc4 : B.countP (fun r => (parseDateCell r.sale_date).isNone) = 0 :=
    List.countP_eq_zero.mpr (fun r hr => by simp [(hcnt r hr).2.2.2.1])
  have hc5 : B.countP (fun r => regionChanged r.region) = 0 :=
    List.countP_eq_zero.mpr (fun r hr => by simp [(hcnt r hr).2.2.2.2.1])
  have hc6 : B.countP (fun r => categoryChanged r.category) = 0 :=
    List.countP_eq_zero.mpr (fun r hr => by simp [(hcnt r hr).2.2.2.2.2.1])
  have hfil : B.filter criticalsPresent = B :=
    List.filter_eq_self.mpr (fun r hr => (hcnt r hr).2.2.2.2.2.2)
  simp only [clean_chunk, remove_duplicates, clean_quantity, clean_price, clean_discount,
    clean_dates, normalize_region, normalize_category, calculate_revenue,
    handle_missing_values, hded, hm1, hm2, hm3, hm4, hm5, hm6, hm7,
    hc1, hc2, hc3, hc4, hc5, hc6, hfil, Nat.sub_self, add_issue_zero]
  rfl

/-- Every row of a cleaned chunk is the pipeline image of some input row and
passes the critical-field check. -/
theorem clean_output_mem {B0 : List Row} {t0 : DataQualityIssues} {r : Row}
    (hr : r ∈ (clean_chunk B0 t0).1) :
    ∃ r0, r = rowPipeline r0 ∧ criticalsPresent (rowPipeline r0) = true := by
  rw [clean_chunk_rows] at hr
  obtain ⟨hmem, hcrit⟩ := List.mem_filter.mp hr
  obtain ⟨r0, _, heq⟩ := List.mem_map.mp hmem
  exact ⟨r0, heq.symm, heq ▸ hcrit⟩

/-- Critical-field survivors expose in-range quantity, price and discount and
the derived revenue value. -/
theorem rowPipeline_crit_fields (r0 : Row) (h : criticalsPresent (rowPipeline r0) = true) :
    ∃ q p d, (rowPipeline r0).quantity = NumCell.num q ∧
      (rowPipeline r0).unit_price = some p ∧
      (rowPipeline r0).discount_percent = some d ∧
      (rowPipeline r0).revenue = some (round2 (q * p * (1 - d / 100))) := by
  simp only [criticalsPresent, Bool.and_eq_true, Bool.not_eq_true'] at h
  obtain ⟨⟨⟨hid, hqna⟩, hpna⟩, hdna⟩ := h
  have hq : ∃ q, cleanQuantityCell r0.quantity = .num q := by
    rcases cleanQuantityCell_cases r0.quantity with hnull | ⟨q, hEq, _, _⟩
    · rw [rowPipeline_quantity, hnull] at hqna
      simp [NumCell.isNA] at hqna
    · exact ⟨q, hEq⟩
  obtain ⟨q, hqEq⟩ := hq
  have hp : ∃ p, cleanPriceCell r0.unit_price = some p := by
    rcases cleanPriceCell_cases r0.unit_price with hnone | ⟨p, hEq, _, _⟩
    · rw [rowPipeline_unit_price, hnone] at hpna
      simp at hpna
    · exact ⟨p, hEq⟩
  obtain ⟨p, hpEq⟩ := hp
  obtain ⟨d, hdEq, _, _⟩ := cleanDiscountCell_spec r0.discount_percent
  refine ⟨q, p, d, ?_, ?_, ?_, ?_⟩
  · rw [rowPipeline_quantity, hqEq]
  · rw [rowPipeline_unit_price, hpEq]
  · rw [rowPipeline_discount, hdEq]
  · rw [rowPipeline_revenue, hqEq, hpEq, hdEq]
    rfl

/-- A raw input row with the exact values of the spec's revenue example. -/
def sampleRow : Row :=
  { order_id := some ("A1"),
    product_name := some ("Widget"),
    category := some ("Electronics"),
    quantity := .num 10,
    unit_price := some 20,
    discount_percent := some 10,
    region := some ("North America"),
    sale_date := .text ("2024-01-05"),
    revenue := none }

/-- `sampleRow` after cleaning. -/
def sampleCleaned : Row :=
  { order_id := some ("A1"),
    product_name := some ("Widget"),
    category := some ("Electronics"),
    quantity := .num 10,
    unit_price := some 20,
    discount_percent := some 10,
    region := some ("North America"),
    sale_date := .date ⟨2024, 1, 5⟩,
    revenue := some 180 }

set_option maxRecDepth 8000

example : (clean_chunk [sampleRow] initIssues).1 = [sampleCleaned] := by
  with_unfolding_all decide

/-- Claim C3: every record surviving cleaning carries
`revenue = round2(quantity * unit_price * (1 - discount_percent/100))`
computed from its cleaned quantity, price and discount; and the concrete
instance quantity 10, price 20, discount 10 yields revenue 180.00. -/
theorem C3_revenue_formula :
    (∀ (B : List Row) (t : DataQualityIssues), ∀ r ∈ (clean_chunk B t).1,
      ∃ q p d, r.quantity = NumCell.num q ∧ r.unit_price = some p ∧
        r.discount_percent = some d ∧
        r.revenue = some (round2 (q * p * (1 - d / 100)))) ∧
    (clean_chunk [sampleRow] initIssues).1.map Row.revenue = [some 180] := by
  constructor
  · intro B t r hr
    obtain ⟨r0, rfl, hcrit⟩ := clean_output_mem hr
    exact rowPipeline_crit_fields r0 hcrit
  · with_unfolding_all decide

/-- Witness for C3 at the concrete example batch. -/
theorem C3_revenue_formula_witness :
    ∃ q p d, sampleCleaned.quantity = NumCell.num q ∧ sampleCleaned.unit_price = some p ∧
      sampleCleaned.discount_percent = some d ∧
      sampleCleaned.revenue = some (round2 (q * p * (1 - d / 100))) :=
  C3_revenue_formula.1 [sampleRow] initIssues sampleCleaned (by with_unfolding_all decide)

/-- Claim C6: the cleaned rows produced by `clean_chunk` depend only on the
input batch; the accumulated tally state never influences a cleaning
decision. -/
theorem C6_tally_noninterference (B : List Row) (t1 t2 : DataQualityIssues) :
    (clean_chunk B t1).1 = (clean_chunk B t2).1 := by
  rw [clean_chunk_rows, clean_chunk_rows]

/-- Claim C7: the quality score is `round2(cleaned/processed*100)` when any
rows were processed and exactly `0` when none were (no division is reached in
that branch). -/
theorem C7_quality_score (q : DataQualityIssues) :
    (0 < q.total_rows_processed →
      data_quality_score q =
        round2 ((q.total_rows_cleaned : ℚ) / (q.total_rows_processed : ℚ) * 100)) ∧
    (q.total_rows_processed = 0 → data_quality_score q = 0) := by
  constructor
  · intro h
    rw [data_quality_score, if_pos h]
  · intro h
    rw [data_quality_score, if_neg (by rw [h]; exact lt_irrefl 0)]
    simp [round2]

/-- Witness for C7 at two concrete tallies. -/
theorem C7_quality_score_witness :
    data_quality_score ⟨0, 0, 0, 0, 0, 0, 0, 0, 4, 3⟩ = round2 ((3 : ℚ) / (4 : ℚ) * 100) ∧
    data_quality_score initIssues = 0 :=
  ⟨(C7_quality_score ⟨0, 0, 0, 0, 0, 0, 0, 0, 4, 3⟩).1 (by decide),
   (C7_quality_score initIssues).2 rfl⟩

/-- Claim C9: with no batches absorbed, all three finalize operations return
empty result sets instead of failing. -/
theorem C9_empty_finalize (n m : ℕ) :
    get_monthly_sales_summary initAggregator = [] ∧
    get_top_products n initAggregator = [] ∧
    get_anomaly_records m initAggregator = [] :=
  ⟨rfl, rfl, rfl⟩

/-- Claim C2 (amended): cleaning an already-clean batch `B = clean(B0)` a
second time returns `B` unchanged and leaves all eight issue counters at
their prior values; however the two row counters `total_rows_processed` and
`total_rows_cleaned` each grow by `|B|` on every call. -/
theorem C2_idempotent_amended (B0 : List Row) (t0 t : DataQualityIssues) :
    (clean_chunk (clean_chunk B0 t0).1 t).1 = (clean_chunk B0 t0).1 ∧
    (clean_chunk (clean_chunk B0 t0).1 t).2 =
      { t with
          total_rows_processed := t.total_rows_processed + ((clean_chunk B0 t0).1).length,
          total_rows_cleaned := t.total_rows_cleaned + ((clean_chunk B0 t0).1).length } := by
  have hfix : ∀ r ∈ (clean_chunk B0 t0).1,
      quantityRow r = r ∧ priceRow r = r ∧ discountRow r = r ∧ dateRow r = r ∧
      regionRow r = r ∧ categoryRow r = r ∧ revenueRow r = r := by
    intro r hr
    obtain ⟨r0, rfl, hcrit⟩ := clean_output_mem hr
    obtain ⟨h1, h2, h3, h4, h5, h6, h7, _⟩ := clean_row_stage_fixed r0 hcrit
    exact ⟨h1, h2, h3, h4, h5, h6, h7⟩
  have hcnt : ∀ r ∈ (clean_chunk B0 t0).1,
      quantityInvalid r.quantity = false ∧ priceInvalid r.unit_price = false ∧
      discountInvalid r.discount_percent = false ∧
      (parseDateCell r.sale_date).isNone = false ∧
      regionChanged r.region = false ∧ categoryChanged r.category = false ∧
      criticalsPresent r = true := by
    intro r hr
    obtain ⟨r0, rfl, hcrit⟩ := clean_output_mem hr
    obtain ⟨_, _, _, _, _, _, _, h8, h9, h10, h11, h12, h13⟩ := clean_row_stage_fixed r0 hcrit
    exact ⟨h8, h9, h10, h11, h12, h13, hcrit⟩
  have h := clean_chunk_of_clean ((clean_chunk B0 t0).1) t
    (clean_chunk_pairwise_ids B0 t0) hfix hcnt
  exact ⟨by rw [h], by rw [h]⟩

/-- Claim C2 counterexample: on a non-empty already-clean batch the second
cleaning does move a tally counter — `total_rows_processed` grows — so
"increments no tally counter" fails as stated. -/
theorem C2_counterexample :
    (clean_chunk (clean_chunk [sampleRow] initIssues).1
        ((clean_chunk [sampleRow] initIssues).2)).2.total_rows_processed ≠
      ((clean_chunk [sampleRow] initIssues).2).total_rows_processed := by
  with_unfolding_all decide

/-- Pointwise order on the tally: every counter at most the counterpart. -/
def tallyLe (a b : DataQualityIssues) : Prop :=
  a.duplicate_orders ≤ b.duplicate_orders ∧
  a.invalid_quantity ≤ b.invalid_quantity ∧
  a.invalid_price ≤ b.invalid_price ∧
  a.invalid_discount ≤ b.invalid_discount ∧
  a.invalid_date ≤ b.invalid_date ∧
  a.missing_values ≤ b.missing_values ∧
  a.normalized_regions ≤ b.normalized_regions ∧
  a.normalized_categories ≤ b.normalized_categories ∧
  a.total_rows_processed ≤ b.total_rows_processed ∧
  a.total_rows_cleaned ≤ b.total_rows_cleaned

theorem tallyLe_refl (t : DataQualityIssues) : tallyLe t t := by
  simp [tallyLe]

theorem tallyLe_trans {a b c : DataQualityIssues} (h1 : tallyLe a b) (h2 : tallyLe b c) :
    tallyLe a c := by
  obtain ⟨x1, x2, x3, x4, x5, x6, x7, x8, x9, x10⟩ := h1
  obtain ⟨y1, y2, y3, y4, y5, y6, y7, y8, y9, y10⟩ := h2
  exact ⟨x1.trans y1, x2.trans y2, x3.trans y3, x4.trans y4, x5.trans y5,
    x6.trans y6, x7.trans y7, x8.trans y8, x9.trans y9, x10.trans y10⟩

theorem add_issue_le (t : DataQualityIssues) (ty : IssueType) (n : ℕ) :
    tallyLe t (t.add_issue ty n) := by
  cases ty <;> simp [tallyLe, DataQualityIssues.add_issue]

theorem tallyLe_add_right {t u : DataQualityIssues} (ty : IssueType) (n : ℕ)
    (h : tallyLe t u) : tallyLe t (u.add_issue ty n) :=
  tallyLe_trans h (add_issue_le u ty n)

/-- `clean_chunk` only ever adds to tally counters. -/
theorem clean_chunk_tally_le (B : List Row) (t : DataQualityIssues) :
    tallyLe t (clean_chunk B t).2 := by
  simp only [clean_chunk, remove_duplicates, clean_quantity, clean_price, clean_discount,
    clean_dates, normalize_region, normalize_category, calculate_revenue,
    handle_missing_values]
  exact tallyLe_add_right _ _ (tallyLe_add_right _ _ (tallyLe_add_right _ _
    (tallyLe_add_right _ _ (tallyLe_add_right _ _ (tallyLe_add_right _ _
    (tallyLe_add_right _ _ (tallyLe_add_right _ _ (tallyLe_add_right _ _
    (tallyLe_add_right _ _ (tallyLe_refl t))))))))))

theorem clean_chunk_processed (B : List Row) (t : DataQualityIssues) :
    (clean_chunk B t).2.total_rows_processed = t.total_rows_processed + B.length := by
  simp only [clean_chunk, remove_duplicates, clean_quantity, clean_price, clean_discount,
    clean_dates, normalize_region, normalize_category, calculate_revenue,
    handle_missing_values]
  rfl

theorem clean_chunk_cleaned (B : List Row) (t : DataQualityIssues) :
    (clean_chunk B t).2.total_rows_cleaned =
      t.total_rows_cleaned + (clean_chunk B t).1.length := by
  simp only [clean_chunk, remove_duplicates, clean_quantity, clean_price, clean_discount,
    clean_dates, normalize_region, normalize_category, calculate_revenue,
    handle_missing_values]
  rfl

/-- Cleaning never grows a batch. -/
theorem clean_chunk_length_le (B : List Row) (t : DataQualityIssues) :
    (clean_chunk B t).1.length ≤ B.length := by
  rw [clean_chunk_rows]
  calc (((dedupRows B).map rowPipeline).filter criticalsPresent).length
      ≤ ((dedupRows B).map rowPipeline).length := List.length_filter_le _ _
    _ = (dedupRows B).length := List.length_map _ _
    _ ≤ B.length := dedupByKey_length_le _ _

theorem foldl_pipelineStep_tally_le (l : List (List Row)) :
    ∀ st : DataQualityIssues × DataAggregator,
      tallyLe st.1 (l.foldl pipelineStep st).1 := by
  induction l with
  | nil => intro st; exact tallyLe_refl _
  | cons c tl ih =>
    intro st
    rw [List.foldl_cons]
    exact tallyLe_trans (clean_chunk_tally_le c st.1) (ih (pipelineStep st c))

theorem foldl_pipelineStep_cleaned_le (l : List (List Row)) :
    ∀ st : DataQualityIssues × DataAggregator,
      st.1.total_rows_cleaned ≤ st.1.total_rows_processed →
      (l.foldl pipelineStep st).1.total_rows_cleaned ≤
        (l.foldl pipelineStep st).1.total_rows_processed := by
  induction l with
  | nil => intro st h; exact h
  | cons c tl ih =>
    intro st h
    rw [List.foldl_cons]
    refine ih (pipelineStep st c) ?_
    show (clean_chunk c st.1).2.total_rows_cleaned ≤ (clean_chunk c st.1).2.total_rows_processed
    rw [clean_chunk_processed, clean_chunk_cleaned]
    exact Nat.add_le_add h (clean_chunk_length_le c st.1)

/-- Claim C5: along any run of the pipeline the tally only grows — after any
prefix of batches every counter is at most its value after any extension —
and after each batch `total_rows_cleaned ≤ total_rows_processed`.
(Counters are naturals in the model: non-negativity is by construction, and
the source only ever adds non-negative mask counts.) -/
theorem C5_tally_monotone (css extra : List (List Row)) :
    tallyLe (process_chunks css).1 (process_chunks (css ++ extra)).1 ∧
    (process_chunks css).1.total_rows_cleaned ≤
      (process_chunks css).1.total_rows_processed := by
  constructor
  · rw [process_chunks, process_chunks, List.foldl_append]
    exact foldl_pipelineStep_tally_le extra _
  · exact foldl_pipelineStep_cleaned_le css _ (Nat.le_refl 0)

theorem read_alloc {H : PdHeap} {r : ℕ} (v : List Row) (hr : r < H.cells.length) :
    ((H.alloc v).1).read r = H.read r := by
  simp only [PdHeap.alloc, PdHeap.read]
  rw [List.getD_append _ _ _ _ hr]

theorem read_alloc_self (H : PdHeap) (v : List Row) :
    ((H.alloc v).1).read (H.alloc v).2 = v := by
  simp [PdHeap.alloc, PdHeap.read, List.getD]

theorem read_write {H : PdHeap} {r c : ℕ} (v : List Row) (hne : r ≠ c) :
    (H.write c v).read r = H.read r := by
  simp only [PdHeap.write, PdHeap.read, List.getD, List.get?_eq_getElem?]
  rw [List.getElem?_set_ne (fun h => hne h.symm)]

theorem read_write_self {H : PdHeap} {c : ℕ} (v : List Row) (hc : c < H.cells.length) :
    (H.write c v).read c = v := by
  simp only [PdHeap.write, PdHeap.read, List.getD, List.get?_eq_getElem?]
  rw [List.getElem?_set_self', List.getElem?_eq_getElem hc]
  rfl

theorem alloc_len (H : PdHeap) (v : List Row) :
    ((H.alloc v).1).cells.length = H.cells.length + 1 := by
  simp [PdHeap.alloc]

theorem write_len (H : PdHeap) (c : ℕ) (v : List Row) :
    (H.write c v).cells.length = H.cells.length := by
  simp [PdHeap.write]

theorem alloc_ref (H : PdHeap) (v : List Row) : (H.alloc v).2 = H.cells.length := rfl

/-- Claim C10: `clean_chunk` leaves the caller's input frame untouched — the
copy taken at entry absorbs every in-place mutation, so after the call the
frame the caller passed in reads back unchanged. -/
theorem C10_input_frame_preserved (h : PdHeap) (df : ℕ) (t : DataQualityIssues)
    (hdf : df < h.cells.length) :
    (clean_chunk_heap h df t).1.read df = h.read df := by
  simp only [clean_chunk_heap]
  rw [read_alloc, read_write, read_write, read_write, read_write, read_write, read_write,
    read_write, read_alloc, read_alloc]
  all_goals (try simp only [alloc_len, write_len, alloc_ref])
  all_goals omega

/-- Store-model coherence spot-check: on a concrete store the returned
reference holds exactly the pure `clean_chunk` result and the tallies agree. -/
example :
    (clean_chunk_heap ⟨[[sampleRow]]⟩ 0 initIssues).1.read
        (clean_chunk_heap ⟨[[sampleRow]]⟩ 0 initIssues).2.1 =
      (clean_chunk [sampleRow] initIssues).1 ∧
    (clean_chunk_heap ⟨[[sampleRow]]⟩ 0 initIssues).2.2 =
      (clean_chunk [sampleRow] initIssues).2 := by
  with_unfolding_all decide

/-- Witness for C10 at a concrete one-frame store. -/
theorem C10_input_frame_preserved_witness :
    (0 < (PdHeap.mk [[sampleRow]]).cells.length) ∧
    (clean_chunk_heap ⟨[[sampleRow]]⟩ 0 initIssues).1.read 0 =
      (PdHeap.mk [[sampleRow]]).read 0 :=
  ⟨Nat.zero_lt_one, C10_input_frame_preserved ⟨[[sampleRow]]⟩ 0 initIssues Nat.zero_lt_one⟩

/-- A second fully-valid row sharing `sampleRow`'s order id. -/
def dupIdRow : Row := { sampleRow with product_name := some ("Gadget") }

/-- Claim C4 counterexample: a record can have every critical field resolved
after repairs and still be absent from the cleaned output, because batch-level
deduplication dropped it first — the stated "if and only if" fails. -/
theorem C4_counterexample :
    criticalsPresent (rowPipeline dupIdRow) = true ∧
    rowPipeline dupIdRow ∉ (clean_chunk [sampleRow, dupIdRow] initIssues).1 := by
  with_unfolding_all decide

/-- Claim C4 (amended): among the records surviving batch-level
deduplication by `order_id`, a record appears in the cleaned output exactly
when none of `order_id, quantity, unit_price, sale_date` is missing/invalid
after all repairs; the `discount_percent` value never influences survival,
and an out-of-range or missing discount is repaired in place to 0. -/
theorem C4_drop_iff_amended (B : List Row) (t : DataQualityIssues) :
    (∀ r ∈ dedupRows B,
      (rowPipeline r ∈ (clean_chunk B t).1 ↔ criticalsPresent (rowPipeline r) = true)) ∧
    (∀ r : Row, ∀ d : Option ℚ,
      criticalsPresent (rowPipeline { r with discount_percent := d }) =
        criticalsPresent (rowPipeline r)) ∧
    (∀ r : Row, discountInvalid r.discount_percent = true →
      (rowPipeline r).discount_percent = some 0) := by
  refine ⟨?_, ?_, ?_⟩
  · intro r hr
    rw [clean_chunk_rows]
    constructor
    · intro hmem
      exact (List.mem_filter.mp hmem).2
    · intro hcrit
      exact List.mem_filter.mpr ⟨List.mem_map_of_mem _ hr, hcrit⟩
  · intro r d
    rfl
  · intro r hinv
    rw [rowPipeline_discount]
    simp [cleanDiscountCell, hinv]

/-- Witness for C4 at concrete rows. -/
theorem C4_drop_iff_amended_witness :
    rowPipeline sampleRow ∈ (clean_chunk [sampleRow] initIssues).1 ∧
    criticalsPresent (rowPipeline { sampleRow with discount_percent := none }) =
      criticalsPresent (rowPipeline sampleRow) ∧
    (rowPipeline { sampleRow with discount_percent := none }).discount_percent = some 0 :=
  ⟨((C4_drop_iff_amended [sampleRow] initIssues).1 sampleRow
      (by with_unfolding_all decide)).mpr (by with_unfolding_all decide),
   (C4_drop_iff_amended [sampleRow] initIssues).2.1 sampleRow none,
   (C4_drop_iff_amended [sampleRow] initIssues).2.2
     { sampleRow with discount_percent := none } (by decide)⟩

/-- Keys survive deduplication exactly when present and not yet seen. -/
theorem mem_dedupByKeyAux_map {α κ : Type} [DecidableEq κ] (key : α → κ) (x : κ)
    (l : List α) : ∀ seen, x ∉ seen →
      (x ∈ (dedupByKeyAux key seen l).map key ↔ x ∈ l.map key) := by
  induction l with
  | nil => intro seen _; rfl
  | cons hd tl ih =>
    intro seen hx
    rw [dedupByKeyAux]
    by_cases hmem : key hd ∈ seen
    · rw [if_pos hmem, List.map_cons, List.mem_cons]
      have hne : x ≠ key hd := fun h => hx (h ▸ hmem)
      rw [ih seen hx]
      simp [hne]
    · rw [if_neg hmem, List.map_cons, List.map_cons, List.mem_cons, List.mem_cons]
      by_cases hxe : x = key hd
      · simp [hxe]
      · have hx' : x ∉ key hd :: seen := by
          intro hc
          rcases List.mem_cons.mp hc with hc | hc
          · exact hxe hc
          · exact hx hc
        rw [ih (key hd :: seen) hx']

theorem mem_dedupByKey_map {α κ : Type} [DecidableEq κ] (key : α → κ) (x : κ) (l : List α) :
    x ∈ (dedupByKey key l).map key ↔ x ∈ l.map key :=
  mem_dedupByKeyAux_map key x l [] (List.not_mem_nil x)

/-- On a key-distinct list, the first match of a key predicate is the unique
row with that key. -/
theorem find?_eq_of_pairwise {α κ : Type} [DecidableEq κ] {key : α → κ} {l : List α}
    (hpw : l.Pairwise (fun a b => key a ≠ key b)) {x : κ} {r : α}
    (hr : r ∈ l) (hx : key r = x) :
    l.find? (fun a => decide (key a = x)) = some r := by
  induction l with
  | nil => simp at hr
  | cons hd tl ih =>
    rw [List.pairwise_cons] at hpw
    rcases List.mem_cons.mp hr with rfl | hr'
    · rw [List.find?_cons_of_pos _ (by simp [hx])]
    · have hne : key hd ≠ x := by
        intro he
        exact hpw.1 r hr' ((hx.trans he.symm).symm)
      rw [List.find?_cons_of_neg _ (by simp [hne]), ih hpw.2 hr']

/-- Deduplication preserves the first occurrence of an unseen key. -/
theorem find?_dedupByKeyAux {α κ : Type} [DecidableEq κ] (key : α → κ) (x : κ)
    (l : List α) : ∀ seen, x ∉ seen →
      (dedupByKeyAux key seen l).find? (fun a => decide (key a = x)) =
        l.find? (fun a => decide (key a = x)) := by
  induction l with
  | nil => intro seen _; rfl
  | cons hd tl ih =>
    intro seen hx
    rw [dedupByKeyAux]
    by_cases hmem : key hd ∈ seen
    · have hne : key hd ≠ x := fun h => hx (h ▸ hmem)
      rw [if_pos hmem, List.find?_cons_of_neg _ (by simp [hne]), ih seen hx]
    · rw [if_neg hmem]
      by_cases hxe : key hd = x
      · rw [List.find?_cons_of_pos _ (by simp [hxe]),
          List.find?_cons_of_pos _ (by simp [hxe])]
      · have hx' : x ∉ key hd :: seen := by
          intro hc
          rcases List.mem_cons.mp hc with hc | hc
          · exact hxe hc.symm
          · exact hx hc
        rw [List.find?_cons_of_neg _ (by simp [hxe]),
          List.find?_cons_of_neg _ (by simp [hxe]), ih (key hd :: seen) hx']

theorem find?_dedupByKey {α κ : Type} [DecidableEq κ] (key : α → κ) (x : κ) (l : List α) :
    (dedupByKey key l).find? (fun a => decide (key a = x)) =
      l.find? (fun a => decide (key a = x)) :=
  find?_dedupByKeyAux key x l [] (List.not_mem_nil x)

/-- On a key-distinct list a key predicate matches at most once. -/
theorem countP_eq_of_pairwise {α κ : Type} [DecidableEq κ] {key : α → κ} {l : List α}
    (hpw : l.Pairwise (fun a b => key a ≠ key b)) (x : κ) :
    l.countP (fun a => decide (key a = x)) = if x ∈ l.map key then 1 else 0 := by
  induction l with
  | nil => simp
  | cons hd tl ih =>
    rw [List.pairwise_cons] at hpw
    by_cases hxe : key hd = x
    · rw [List.countP_cons_of_pos _ _ (by simp [hxe]), ih hpw.2]
      have hnot : x ∉ tl.map key := by
        intro hc
        obtain ⟨b, hb, hbx⟩ := List.mem_map.mp hc
        exact hpw.1 b hb (hxe.trans hbx.symm)
      simp [hnot, hxe]
    · rw [List.countP_cons_of_neg _ _ (by simp [hxe]), ih hpw.2]
      simp [Ne.symm hxe]

/-- The deduplicated length is the number of distinct keys. -/
theorem dedupByKey_length_eq_card {α κ : Type} [DecidableEq κ] (key : α → κ) (l : List α) :
    (dedupByKey key l).length = (l.map key).toFinset.card := by
  have hnd : ((dedupByKey key l).map key).Nodup :=
    (List.pairwise_map).mpr (dedupByKey_pairwise key l)
  have hset : ((dedupByKey key l).map key).toFinset = (l.map key).toFinset := by
    ext k
    simp only [List.mem_toFinset]
    exact mem_dedupByKey_map key k l
  calc (dedupByKey key l).length
      = ((dedupByKey key l).map key).length := (List.length_map _ _).symm
    _ = ((dedupByKey key l).map key).toFinset.card := (List.toFinset_card_of_nodup hnd).symm
    _ = (l.map key).toFinset.card := by rw [hset]

/-- A key list with one key occurring twice and every other key at most once
has exactly one more entry than it has distinct keys. -/
theorem length_eq_card_add_one {κ : Type} [DecidableEq κ] (ks : List κ) (x : κ)
    (h2 : ks.count x = 2) (h1 : ∀ y, y ≠ x → ks.count y ≤ 1) :
    ks.length = ks.toFinset.card + 1 := by
  have hx : x ∈ ks := by
    have : 0 < ks.count x := by omega
    exact List.count_pos_iff.mp this
  have hxF : x ∈ ks.toFinset := List.mem_toFinset.mpr hx
  have hsum : ∑ a ∈ ks.toFinset, ks.count a = ks.length := by
    simp [Multiset.toFinset_sum_count_eq (ks : Multiset κ)]
  have hone : ∀ y ∈ ks.toFinset.erase x, ks.count y = 1 := by
    intro y hy
    have hym : y ∈ ks := List.mem_toFinset.mp (Finset.mem_of_mem_erase hy)
    have hpos : 0 < ks.count y := List.count_pos_iff.mpr hym
    have hle := h1 y (Finset.ne_of_mem_erase hy)
    omega
  have hcard : 0 < ks.toFinset.card := Finset.card_pos.mpr ⟨x, hxF⟩
  have hsplit := Finset.add_sum_erase ks.toFinset ks.count hxF
  rw [Finset.sum_congr rfl hone, Finset.sum_const, smul_eq_mul, mul_one,
    Finset.card_erase_of_mem hxF] at hsplit
  simp only [h2] at hsplit
  omega

theorem clean_chunk_duplicates (B : List Row) (t : DataQualityIssues) :
    (clean_chunk B t).2.duplicate_orders =
      t.duplicate_orders + (B.length - (dedupRows B).length) := by
  simp only [clean_chunk, remove_duplicates, clean_quantity, clean_price, clean_discount,
    clean_dates, normalize_region, normalize_category, calculate_revenue,
    handle_missing_values]
  rfl

theorem dedupRows_def (B : List Row) : dedupRows B = dedupByKey Row.order_id B := rfl

theorem count_eq_countP_decide {κ : Type} [DecidableEq κ] (x : κ) (l : List κ) :
    @List.count κ instBEqOfDecidableEq x l = l.countP (fun y => decide (y = x)) := rfl

/-- A third fully-valid row with a fresh order id. -/
def otherIdRow : Row := { sampleRow with order_id := some ("B1") }

/-- A fourth fully-valid row duplicating `otherIdRow`'s order id. -/
def otherIdRowDup : Row :=
  { sampleRow with order_id := some ("B1"), product_name := some ("Gadget") }

/-- Claim C8 counterexample: in a batch where the id `A1` occurs exactly
twice but a second id is also duplicated, `duplicate_orders` grows by 2, not
by exactly 1. -/
theorem C8_counterexample :
    (([sampleRow, dupIdRow, otherIdRow, otherIdRowDup].map Row.order_id).countP
        (fun y => decide (y = some ("A1"))) = 2) ∧
    (clean_chunk [sampleRow, dupIdRow, otherIdRow, otherIdRowDup]
        initIssues).2.duplicate_orders = 2 := by
  with_unfolding_all decide

/-- Claim C8 (amended): if an `order_id` occurs exactly twice in a batch,
deduplication keeps exactly one row with that id — the first occurrence — and
every cleaned-output row with that id descends from that first occurrence;
`duplicate_orders` grows by the total number of removed duplicate rows, which
is exactly 1 when every other id occurs at most once. -/
theorem C8_duplicate_first_kept (B : List Row) (t : DataQualityIssues) (x : Option String)
    (h2 : (B.map Row.order_id).countP (fun y => decide (y = x)) = 2) :
    ((dedupRows B).countP (fun r => decide (r.order_id = x)) = 1) ∧
    ((dedupRows B).find? (fun r => decide (r.order_id = x)) =
      B.find? (fun r => decide (r.order_id = x))) ∧
    (∀ rr ∈ (clean_chunk B t).1, rr.order_id = x →
      ∃ r0, B.find? (fun r => decide (r.order_id = x)) = some r0 ∧ rr = rowPipeline r0) ∧
    ((clean_chunk B t).2.duplicate_orders =
      t.duplicate_orders + (B.length - (dedupRows B).length)) ∧
    (((B.map Row.order_id).filter (fun y => decide (y ≠ x))).Nodup →
      (clean_chunk B t).2.duplicate_orders = t.duplicate_orders + 1) := by
  have h2' : @List.count (Option String) instBEqOfDecidableEq x (B.map Row.order_id) = 2 := by
    rw [count_eq_countP_decide]
    exact h2
  have hxmem : x ∈ B.map Row.order_id := by
    have hpos : 0 < (B.map Row.order_id).countP (fun y => decide (y = x)) := by omega
    obtain ⟨a, ha, hax⟩ := List.countP_pos_iff.mp hpos
    exact (of_decide_eq_true hax) ▸ ha
  have hpw := dedupByKey_pairwise Row.order_id B
  refine ⟨?_, find?_dedupByKey Row.order_id x B, ?_, clean_chunk_duplicates B t, ?_⟩
  · rw [dedupRows_def, countP_eq_of_pairwise hpw x,
      if_pos ((mem_dedupByKey_map Row.order_id x B).mpr hxmem)]
  · intro rr hrr hid
    rw [clean_chunk_rows] at hrr
    obtain ⟨hmem, _⟩ := List.mem_filter.mp hrr
    obtain ⟨r0, hr0, rfl⟩ := List.mem_map.mp hmem
    refine ⟨r0, ?_, rfl⟩
    rw [← find?_dedupByKey Row.order_id x B]
    exact find?_eq_of_pairwise hpw hr0 hid
  · intro hnod
    have h1 : ∀ y, y ≠ x →
        @List.count (Option String) instBEqOfDecidableEq y (B.map Row.order_id) ≤ 1 := by
      intro y hy
      have hcnt : ∀ z : Option String,
          (decide (z = y) && decide (z ≠ x)) = decide (z = y) := by
        intro z
        by_cases hz : z = y
        · subst hz; simp [hy]
        · simp [hz]
      rw [count_eq_countP_decide]
      calc (B.map Row.order_id).countP (fun z => decide (z = y))
          = (B.map Row.order_id).countP (fun z => decide (z = y) && decide (z ≠ x)) := by
            simp only [hcnt]
        _ = ((B.map Row.order_id).filter (fun z => decide (z ≠ x))).countP
              (fun z => decide (z = y)) :=
            (List.countP_filter _ _ _).symm
        _ ≤ 1 := by
            rw [← count_eq_countP_decide]
            exact List.nodup_iff_count_le_one.mp hnod y
    rw [clean_chunk_duplicates B t, dedupRows_def, dedupByKey_length_eq_card]
    have hlen := length_eq_card_add_one (B.map Row.order_id) x h2' h1
    have hBlen : (B.map Row.order_id).length = B.length := List.length_map _ _
    omega

/-- Witness for C8: id `A1` duplicated once, all other ids unique. -/
theorem C8_duplicate_first_kept_witness :
    ([sampleRow, dupIdRow, otherIdRow].map Row.order_id).countP
        (fun y => decide (y = some ("A1"))) = 2 ∧
    (([sampleRow, dupIdRow, otherIdRow].map Row.order_id).filter
        (fun y => decide (y ≠ some ("A1")))).Nodup ∧
    (clean_chunk [sampleRow, dupIdRow, otherIdRow] initIssues).2.duplicate_orders =
      initIssues.duplicate_orders + 1 :=
  ⟨by decide, by decide,
   (C8_duplicate_first_kept [sampleRow, dupIdRow, otherIdRow] initIssues
      (some ("A1")) (by decide)).2.2.2.2 (by decide)⟩

/-! ## Re-chunking analysis.

With pairwise-distinct `order_id`s deduplication is inert and cleaning acts
row by row, so the cleaned data of a run is a `filterMap` over the
concatenated input — independent of how the rows were chunked.  The lemmas
below characterize the aggregator's accumulators in terms of that cleaned
dataset. -/

/-- Row-level cleaning: the stage pipeline followed by the critical-field
drop decision. -/
def cleanRow (r : Row) : Option Row :=
  if criticalsPresent (rowPipeline r) then some (rowPipeline r) else none

/-- The cleaned rows of one chunk (the first component of `clean_chunk`,
which never depends on the tally). -/
def cleanRows (B : List Row) : List Row :=
  ((dedupRows B).map rowPipeline).filter criticalsPresent

theorem clean_chunk_fst (B : List Row) (t : DataQualityIssues) :
    (clean_chunk B t).1 = cleanRows B :=
  clean_chunk_rows B t

theorem filter_map_eq_filterMap {α β : Type} (f : α → β) (p : β → Bool) (l : List α) :
    (l.map f).filter p = l.filterMap (fun x => if p (f x) then some (f x) else none) := by
  induction l with
  | nil => rfl
  | cons hd tl ih =>
    rw [List.map_cons, List.filterMap_cons]
    by_cases h : p (f hd)
    · rw [List.filter_cons_of_pos h, ih, if_pos h]
    · rw [List.filter_cons_of_neg h, ih, if_neg h]

/-- On a batch with pairwise-distinct ids, cleaning is a row-wise
`filterMap`. -/
theorem cleanRows_eq_filterMap {B : List Row}
    (h : B.Pairwise (fun a b => a.order_id ≠ b.order_id)) :
    cleanRows B = B.filterMap cleanRow := by
  rw [cleanRows, dedupRows_def, dedupByKey_eq_self h, filter_map_eq_filterMap]
  rfl

/-- Removing empty lists does not change the concatenation. -/
theorem flatten_filter_nonempty {α : Type} (L : List (List α)) :
    ((L.filter (fun l => !l.isEmpty)).flatten) = L.flatten := by
  induction L with
  | nil => rfl
  | cons hd tl ih =>
    by_cases h : hd.isEmpty
    · rw [List.filter_cons_of_neg (by simp [h]), List.flatten_cons, ih,
        List.isEmpty_iff.mp h, List.nil_append]
    · rw [List.filter_cons_of_pos (by simp [h]), List.flatten_cons, List.flatten_cons, ih]

/-- Cleaning chunk-wise then concatenating equals cleaning the concatenation
row-wise, when ids are globally distinct. -/
theorem flatten_cleanRows {css : List (List Row)} {D : List Row} (hflat : css.flatten = D)
    (hids : D.Pairwise (fun a b => a.order_id ≠ b.order_id)) :
    (css.map cleanRows).flatten = D.filterMap cleanRow := by
  subst hflat
  induction css with
  | nil => rfl
  | cons hd tl ih =>
    rw [List.flatten_cons] at hids
    rw [List.map_cons, List.flatten_cons, List.flatten_cons, List.filterMap_append]
    have hpair := (List.pairwise_append.mp hids)
    rw [cleanRows_eq_filterMap hpair.1, ih hpair.2.1]

theorem mem_insertKey {κ : Type} [LinearOrder κ] (x a : κ) (l : List κ) :
    a ∈ insertKey x l ↔ a = x ∨ a ∈ l := by
  induction l with
  | nil => simp [insertKey]
  | cons hd tl ih =>
    rw [insertKey]
    by_cases h1 : x < hd
    · rw [if_pos h1]
      simp [List.mem_cons, or_comm, or_assoc]
    · rw [if_neg h1]
      by_cases h2 : x = hd
      · rw [if_pos h2]
        subst h2
        simp [List.mem_cons]
      · rw [if_neg h2]
        simp only [List.mem_cons, ih]
        tauto

theorem insertKey_sorted {κ : Type} [LinearOrder κ] (x : κ) {l : List κ}
    (h : l.Pairwise (· < ·)) : (insertKey x l).Pairwise (· < ·) := by
  induction l with
  | nil => simp [insertKey]
  | cons hd tl ih =>
    rw [List.pairwise_cons] at h
    rw [insertKey]
    by_cases h1 : x < hd
    · rw [if_pos h1, List.pairwise_cons]
      refine ⟨?_, List.Pairwise.cons h.1 h.2⟩
      intro b hb
      rcases List.mem_cons.mp hb with rfl | hb'
      · exact h1
      · exact h1.trans (h.1 b hb')
    · rw [if_neg h1]
      by_cases h2 : x = hd
      · rw [if_pos h2, List.pairwise_cons]
        exact ⟨h.1, h.2⟩
      · rw [if_neg h2, List.pairwise_cons]
        have hgt : hd < x := lt_of_le_of_ne (not_lt.mp h1) (Ne.symm h2)
        refine ⟨?_, ih h.2⟩
        intro b hb
        rcases (mem_insertKey x b tl).mp hb with rfl | hb'
        · exact hgt
        · exact h.1 b hb'

theorem sortedKeys_sorted {κ : Type} [LinearOrder κ] (l : List κ) :
    (sortedKeys l).Pairwise (· < ·) := by
  induction l with
  | nil => simp [sortedKeys]
  | cons hd tl ih => exact insertKey_sorted hd ih

theorem mem_sortedKeys {κ : Type} [LinearOrder κ] (a : κ) (l : List κ) :
    a ∈ sortedKeys l ↔ a ∈ l := by
  induction l with
  | nil => rfl
  | cons hd tl ih =>
    show a ∈ insertKey hd (sortedKeys tl) ↔ _
    rw [mem_insertKey, ih, List.mem_cons]

/-- Strictly sorted lists with the same members are equal. -/
theorem eq_of_sorted_of_mem_iff {κ : Type} [LinearOrder κ] :
    ∀ {l1 l2 : List κ}, l1.Pairwise (· < ·) → l2.Pairwise (· < ·) →
      (∀ a, a ∈ l1 ↔ a ∈ l2) → l1 = l2 := by
  intro l1
  induction l1 with
  | nil =>
    intro l2 _ _ hmem
    cases l2 with
    | nil => rfl
    | cons hd tl => exact absurd ((hmem hd).mpr (List.mem_cons_self _ _)) (List.not_mem_nil hd)
  | cons hd tl ih =>
    intro l2 h1 h2 hmem
    cases l2 with
    | nil => exact absurd ((hmem hd).mp (List.mem_cons_self _ _)) (List.not_mem_nil hd)
    | cons hd2 tl2 =>
      rw [List.pairwise_cons] at h1 h2
      have hhd : hd = hd2 := by
        rcases List.mem_cons.mp ((hmem hd).mp (List.mem_cons_self _ _)) with h | h
        · exact h
        · rcases List.mem_cons.mp ((hmem hd2).mpr (List.mem_cons_self _ _)) with h' | h'
          · exact h'.symm
          · exact absurd (lt_trans (h2.1 hd h) (h1.1 hd2 h')) (lt_irrefl hd2)
      subst hhd
      refine congrArg _ (ih h1.2 h2.2 ?_)
      intro a
      constructor
      · intro ha
        rcases List.mem_cons.mp ((hmem a).mp (List.mem_cons_of_mem _ ha)) with rfl | h
        · exact absurd (h1.1 a ha) (lt_irrefl a)
        · exact h
      · intro ha
        rcases List.mem_cons.mp ((hmem a).mpr (List.mem_cons_of_mem _ ha)) with rfl | h
        · exact absurd (h2.1 a ha) (lt_irrefl a)
        · exact h

/-- `sortedKeys` is determined by membership. -/
theorem sortedKeys_congr {κ : Type} [LinearOrder κ] {l1 l2 : List κ}
    (h : ∀ a, a ∈ l1 ↔ a ∈ l2) : sortedKeys l1 = sortedKeys l2 :=
  eq_of_sorted_of_mem_iff (sortedKeys_sorted l1) (sortedKeys_sorted l2)
    (fun a => by rw [mem_sortedKeys, mem_sortedKeys]; exact h a)

theorem find?_eq_self {κ : Type} [DecidableEq κ] (p : κ) :
    ∀ l : List κ, l.find? (fun a => decide (a = p)) = if p ∈ l then some p else none := by
  intro l
  induction l with
  | nil => rfl
  | cons hd tl ih =>
    by_cases h : hd = p
    · subst h
      rw [List.find?_cons_of_pos _ (by simp), if_pos (List.mem_cons_self _ _)]
    · rw [List.find?_cons_of_neg _ (by simp [h]), ih]
      by_cases hm : p ∈ tl
      · rw [if_pos hm, if_pos (List.mem_cons_of_mem _ hm)]
      · have hnot : p ∉ hd :: tl := by
          intro hc
          rcases List.mem_cons.mp hc with heq | hc2
          · exact h heq.symm
          · exact hm hc2
        rw [if_neg hm, if_neg hnot]

/-- Filtering a nodup list for one key yields that key alone (when present). -/
theorem filter_eq_singleton {κ : Type} [DecidableEq κ] {l : List κ} (hnd : l.Nodup) (p : κ) :
    l.filter (fun a => decide (a = p)) = if p ∈ l then [p] else [] := by
  induction l with
  | nil => rfl
  | cons hd tl ih =>
    rw [List.nodup_cons] at hnd
    by_cases h : hd = p
    · subst h
      rw [List.filter_cons_of_pos (by simp), if_pos (List.mem_cons_self _ _)]
      have he : tl.filter (fun a => decide (a = hd)) = [] := by
        rw [ih hnd.2, if_neg hnd.1]
      rw [he]
    · rw [List.filter_cons_of_neg (by simp [h]), ih hnd.2]
      by_cases hm : p ∈ tl
      · rw [if_pos hm, if_pos (List.mem_cons_of_mem _ hm)]
      · have hnot : p ∉ hd :: tl := by
          intro hc
          rcases List.mem_cons.mp hc with heq | hc2
          · exact h heq.symm
          · exact hm hc2
        rw [if_neg hm, if_neg hnot]

/-- One month's group row of a chunk summary. -/
def monthGroup (c : List Row) (m : ℕ) : MonthlyRow :=
  { year_month := m,
    total_revenue := ((c.filter (fun r => rowYearMonth r = some m)).filterMap Row.revenue).sum,
    total_quantity := ((c.filter (fun r => rowYearMonth r = some m)).filterMap quantityOf).sum,
    avg_discount :=
      listMean ((c.filter (fun r => rowYearMonth r = some m)).filterMap Row.discount_percent) }

theorem monthly_chunk_eq (c : List Row) :
    monthly_chunk c = (sortedKeys (c.filterMap rowYearMonth)).map (monthGroup c) := rfl

/-- The group keys of a chunk's monthly summary. -/
theorem monthly_chunk_map_ym (c : List Row) :
    (monthly_chunk c).map MonthlyRow.year_month = sortedKeys (c.filterMap rowYearMonth) := by
  rw [monthly_chunk_eq, List.map_map]
  have hid : (MonthlyRow.year_month ∘ monthGroup c) = id := rfl
  rw [hid, List.map_id]

/-- Selecting one month from a chunk summary: the single group row when the
month occurs in the chunk, nothing otherwise. -/
theorem monthly_chunk_filter (c : List Row) (m : ℕ) :
    (monthly_chunk c).filter (fun x => x.year_month = m) =
      if m ∈ c.filterMap rowYearMonth then [monthGroup c m] else [] := by
  rw [monthly_chunk_eq, List.filter_map]
  have hcomp : ((fun x : MonthlyRow => decide (x.year_month = m)) ∘ monthGroup c) =
      (fun k => decide (k = m)) := rfl
  rw [hcomp, filter_eq_singleton (List.Pairwise.imp ne_of_lt (sortedKeys_sorted _)) m]
  by_cases hm : m ∈ c.filterMap rowYearMonth
  · rw [if_pos ((mem_sortedKeys m _).mpr hm), if_pos hm, List.map_cons, List.map_nil]
  · rw [if_neg (fun hc => hm ((mem_sortedKeys m _).mp hc)), if_neg hm, List.map_nil]

theorem combined_month_rev (L : List (List Row)) (m : ℕ) :
    ((((L.map monthly_chunk).flatten).filter (fun x => x.year_month = m)).map
        MonthlyRow.total_revenue).sum =
      ((L.flatten.filter (fun r => rowYearMonth r = some m)).filterMap Row.revenue).sum := by
  induction L with
  | nil => rfl
  | cons c tl ih =>
    rw [List.map_cons, List.flatten_cons, List.flatten_cons, List.filter_append,
      List.filter_append, List.map_append, List.sum_append, ih, List.filterMap_append,
      List.sum_append, monthly_chunk_filter]
    congr 1
    by_cases hm : m ∈ c.filterMap rowYearMonth
    · rw [if_pos hm]
      simp [monthGroup]
    · rw [if_neg hm]
      have hnil : c.filter (fun r => rowYearMonth r = some m) = [] := by
        rw [List.filter_eq_nil_iff]
        intro r hr hp
        exact hm (List.mem_filterMap.mpr ⟨r, hr, by simpa using hp⟩)
      rw [hnil]
      rfl

theorem combined_month_qty (L : List (List Row)) (m : ℕ) :
    ((((L.map monthly_chunk).flatten).filter (fun x => x.year_month = m)).map
        MonthlyRow.total_quantity).sum =
      ((L.flatten.filter (fun r => rowYearMonth r = some m)).filterMap quantityOf).sum := by
  induction L with
  | nil => rfl
  | cons c tl ih =>
    rw [List.map_cons, List.flatten_cons, List.flatten_cons, List.filter_append,
      List.filter_append, List.map_append, List.sum_append, ih, List.filterMap_append,
      List.sum_append, monthly_chunk_filter]
    congr 1
    by_cases hm : m ∈ c.filterMap rowYearMonth
    · rw [if_pos hm]
      simp [monthGroup]
    · rw [if_neg hm]
      have hnil : c.filter (fun r => rowYearMonth r = some m) = [] := by
        rw [List.filter_eq_nil_iff]
        intro r hr hp
        exact hm (List.mem_filterMap.mpr ⟨r, hr, by simpa using hp⟩)
      rw [hnil]
      rfl

theorem combined_month_mem (L : List (List Row)) (m : ℕ) :
    (m ∈ ((L.map monthly_chunk).flatten).map MonthlyRow.year_month) ↔
      m ∈ L.flatten.filterMap rowYearMonth := by
  induction L with
  | nil => simp
  | cons c tl ih =>
    rw [List.map_cons, List.flatten_cons, List.flatten_cons, List.map_append,
      List.mem_append, List.filterMap_append, List.mem_append, ih, monthly_chunk_map_ym,
      mem_sortedKeys]

theorem process_chunk_monthly (agg : DataAggregator) (df : List Row) :
    (process_chunk agg df).monthly_sales = agg.monthly_sales ++ [monthly_chunk df] := rfl

theorem foldl_pipeline_monthly (css : List (List Row)) :
    ∀ st : DataQualityIssues × DataAggregator,
      ((css.foldl pipelineStep st).2).monthly_sales =
        st.2.monthly_sales ++
          (((css.map cleanRows).filter (fun l => !l.isEmpty)).map monthly_chunk) := by
  induction css with
  | nil => intro st; simp
  | cons c tl ih =>
    intro st
    rw [List.foldl_cons, ih, List.map_cons]
    by_cases hc : (cleanRows c).isEmpty
    · have hstep : (pipelineStep st c).2 = st.2 := by
        rw [pipelineStep]
        have hlen : ¬(clean_chunk c st.1).1.length > 0 := by
          rw [clean_chunk_fst, List.isEmpty_iff.mp hc]
          simp
        simp only [if_neg hlen]
      rw [hstep, List.filter_cons_of_neg (by simp [hc])]
    · have hstep : (pipelineStep st c).2 = process_chunk st.2 (cleanRows c) := by
        rw [pipelineStep]
        simp only [clean_chunk_fst]
        rw [if_pos]
        cases he : cleanRows c with
        | nil => rw [he] at hc; simp at hc
        | cons a l => simp [he]
      rw [hstep, process_chunk_monthly, List.filter_cons_of_pos (by simp [hc]),
        List.map_cons]
      simp

/-- The chunking-independent content of the final monthly summary: month key,
total revenue and total quantity per month of the cleaned dataset. -/
def monthlySummaryCanon (E : List Row) : List (ℕ × ℚ × ℤ) :=
  if E = [] then []
  else
    (sortedKeys (E.filterMap rowYearMonth)).map fun m =>
      (m, round2 (((E.filter (fun r => rowYearMonth r = some m)).filterMap Row.revenue).sum),
       intTrunc (((E.filter (fun r => rowYearMonth r = some m)).filterMap quantityOf).sum))

/-- Under globally distinct ids, the (month, revenue, quantity) content of
`finalize_monthly` depends only on the cleaned dataset, not on the chunking. -/
theorem monthly_summary_proj (css : List (List Row)) (D : List Row)
    (hflat : css.flatten = D)
    (hids : D.Pairwise (fun a b => a.order_id ≠ b.order_id)) :
    (get_monthly_sales_summary (process_chunks css).2).map
        (fun x => (x.year_month, x.total_revenue, x.total_quantity)) =
      monthlySummaryCanon (D.filterMap cleanRow) := by
  have hms : (process_chunks css).2.monthly_sales =
      ((css.map cleanRows).filter (fun l => !l.isEmpty)).map monthly_chunk := by
    rw [process_chunks, foldl_pipeline_monthly]
    rfl
  have hLflat : ((css.map cleanRows).filter (fun l => !l.isEmpty)).flatten =
      D.filterMap cleanRow := by
    rw [flatten_filter_nonempty]
    exact flatten_cleanRows hflat hids
  simp only [get_monthly_sales_summary, hms, monthlySummaryCanon]
  by_cases hE : D.filterMap cleanRow = []
  · have hLne : (css.map cleanRows).filter (fun l => !l.isEmpty) = [] := by
      cases hL : (css.map cleanRows).filter (fun l => !l.isEmpty) with
      | nil => rfl
      | cons a l =>
        have ha : a ∈ (css.map cleanRows).filter (fun l => !l.isEmpty) := by
          rw [hL]; exact List.mem_cons_self _ _
        have hane := (List.mem_filter.mp ha).2
        have : a = [] := by
          have hsub : a.Sublist (((css.map cleanRows).filter
              (fun l => !l.isEmpty)).flatten) := by
            rw [hL]
            exact (List.sublist_append_left a l.flatten).trans
              (by rw [List.flatten_cons])
          rw [hLflat, hE] at hsub
          exact List.sublist_nil.mp hsub
        rw [this] at hane
        simp at hane
    rw [hLne, if_pos hE]
    rfl
  · have hLne : (css.map cleanRows).filter (fun l => !l.isEmpty) ≠ [] := by
      intro hcon
      rw [hcon] at hLflat
      exact hE hLflat.symm
    have hmsl : ((css.map cleanRows).filter (fun l => !l.isEmpty)).map monthly_chunk ≠ [] := by
      intro hcon
      exact hLne (List.map_eq_nil_iff.mp hcon)
    rw [if_neg hmsl, if_neg hE, List.map_map]
    have hkeys : sortedKeys (((((css.map cleanRows).filter
          (fun l => !l.isEmpty)).map monthly_chunk).flatten).map MonthlyRow.year_month) =
        sortedKeys ((D.filterMap cleanRow).filterMap rowYearMonth) := by
      refine sortedKeys_congr ?_
      intro a
      rw [combined_month_mem, hLflat]
    rw [hkeys]
    refine List.map_congr_left ?_
    intro m _
    have hrev := combined_month_rev ((css.map cleanRows).filter (fun l => !l.isEmpty)) m
    have hqty := combined_month_qty ((css.map cleanRows).filter (fun l => !l.isEmpty)) m
    rw [hLflat] at hrev hqty
    simp only [Function.comp]
    rw [hrev, hqty]

/-- Per-product revenue of a dataset. -/
def prodRevOf (E : List Row) (p : String) : ℚ :=
  ((E.filter (fun r => r.product_name = some p)).filterMap Row.revenue).sum

/-- Per-product unit count of a dataset. -/
def prodQtyOf (E : List Row) (p : String) : ℚ :=
  ((E.filter (fun r => r.product_name = some p)).filterMap quantityOf).sum

theorem prodRevOf_append (E C : List Row) (p : String) :
    prodRevOf (E ++ C) p = prodRevOf E p + prodRevOf C p := by
  rw [prodRevOf, prodRevOf, prodRevOf, List.filter_append, List.filterMap_append,
    List.sum_append]

theorem prodQtyOf_append (E C : List Row) (p : String) :
    prodQtyOf (E ++ C) p = prodQtyOf E p + prodQtyOf C p := by
  rw [prodQtyOf, prodQtyOf, prodQtyOf, List.filter_append, List.filterMap_append,
    List.sum_append]

theorem products_filter_nil {E : List Row} {p : String}
    (h : p ∉ E.filterMap Row.product_name) :
    E.filter (fun r => r.product_name = some p) = [] := by
  rw [List.filter_eq_nil_iff]
  intro r hr hp
  exact h (List.mem_filterMap.mpr ⟨r, hr, by simpa using hp⟩)

theorem prodRevOf_eq_zero {E : List Row} {p : String}
    (h : p ∉ E.filterMap Row.product_name) : prodRevOf E p = 0 := by
  rw [prodRevOf, products_filter_nil h]
  rfl

theorem prodQtyOf_eq_zero {E : List Row} {p : String}
    (h : p ∉ E.filterMap Row.product_name) : prodQtyOf E p = 0 := by
  rw [prodQtyOf, products_filter_nil h]
  rfl

theorem lookup_cons_eq {β : Type} (k : String) (v : β) (l : List (String × β)) :
    List.lookup k ((k, v) :: l) = some v := by
  simp [List.lookup]

theorem lookup_cons_ne {β : Type} {k k' : String} (hne : k ≠ k') (v : β)
    (l : List (String × β)) : List.lookup k ((k', v) :: l) = List.lookup k l := by
  have hb : (k == k') = false := beq_eq_false_iff_ne.mpr hne
  simp [List.lookup, hb]

theorem lookup_dictAdd (m : List (String × ℚ)) (k : String) (v : ℚ) (p : String) :
    (dictAdd m k v).lookup p =
      if p = k then some (((m.lookup k).getD 0) + v) else m.lookup p := by
  induction m with
  | nil =>
    by_cases h : p = k
    · subst h
      show List.lookup p [(p, v)] = _
      rw [lookup_cons_eq, if_pos rfl]
      show some v = some ((Option.getD none 0) + v)
      rw [Option.getD, zero_add]
    · show List.lookup p [(k, v)] = _
      rw [lookup_cons_ne h, if_neg h]
  | cons e rest ih =>
    obtain ⟨k', v'⟩ := e
    rw [dictAdd]
    by_cases hk : k = k'
    · rw [if_pos hk]
      subst hk
      by_cases hp : p = k
      · subst hp
        rw [lookup_cons_eq, if_pos rfl, lookup_cons_eq]
        show some (v' + v) = some (Option.getD (some v') 0 + v)
        rw [Option.getD]
      · rw [lookup_cons_ne hp, if_neg hp, lookup_cons_ne hp]
    · rw [if_neg hk]
      by_cases hp : p = k'
      · subst hp
        rw [lookup_cons_eq, if_neg (fun h => hk h.symm), lookup_cons_eq]
      · rw [lookup_cons_ne hp, ih]
        by_cases hpk : p = k
        · subst hpk
          rw [if_pos rfl, if_pos rfl, lookup_cons_ne hp]
        · rw [if_neg hpk, if_neg hpk, lookup_cons_ne hp]

theorem keys_dictAdd (m : List (String × ℚ)) (k : String) (v : ℚ) :
    (dictAdd m k v).map Prod.fst =
      if k ∈ m.map Prod.fst then m.map Prod.fst else m.map Prod.fst ++ [k] := by
  induction m with
  | nil => simp [dictAdd]
  | cons e rest ih =>
    obtain ⟨k', v'⟩ := e
    rw [dictAdd]
    by_cases hk : k = k'
    · rw [if_pos hk, List.map_cons, List.map_cons, if_pos (by simp [hk])]
    · rw [if_neg hk, List.map_cons, List.map_cons, ih]
      by_cases hm : k ∈ rest.map Prod.fst
      · rw [if_pos hm, if_pos (by simp [List.mem_cons, hm])]
      · have hkn : k ∉ (k', v').1 :: rest.map Prod.fst := by
          simp only [List.mem_cons]
          rintro (h | h)
          · exact hk h
          · exact hm h
        rw [if_neg hm, if_neg hkn]
        rfl

theorem mem_keys_dictAdd (m : List (String × ℚ)) (k : String) (v : ℚ) (p : String) :
    p ∈ (dictAdd m k v).map Prod.fst ↔ p ∈ m.map Prod.fst ∨ p = k := by
  rw [keys_dictAdd]
  by_cases hm : k ∈ m.map Prod.fst
  · rw [if_pos hm]
    constructor
    · exact Or.inl
    · rintro (h | rfl)
      · exact h
      · exact hm
  · rw [if_neg hm, List.mem_append]
    simp

theorem nodup_keys_dictAdd {m : List (String × ℚ)} (k : String) (v : ℚ)
    (h : (m.map Prod.fst).Nodup) : ((dictAdd m k v).map Prod.fst).Nodup := by
  rw [keys_dictAdd]
  by_cases hm : k ∈ m.map Prod.fst
  · rw [if_pos hm]
    exact h
  · rw [if_neg hm]
    exact List.Nodup.append h (List.nodup_singleton k) (by simpa using hm)

theorem foldl_dictAdd_lookup {ε : Type} (key : ε → String) (val : ε → ℚ) :
    ∀ (entries : List ε), ((entries.map key).Nodup) →
      ∀ (m0 : List (String × ℚ)) (p : String),
      ((entries.foldl (fun d e => dictAdd d (key e) (val e)) m0).lookup p) =
        (match entries.find? (fun e => decide (key e = p)) with
         | some e => some (((m0.lookup p).getD 0) + val e)
         | none => m0.lookup p) := by
  intro entries
  induction entries with
  | nil => intro _ m0 p; rfl
  | cons e es ih =>
    intro hnd m0 p
    rw [List.map_cons, List.nodup_cons] at hnd
    rw [List.foldl_cons, ih hnd.2]
    by_cases hp : key e = p
    · rw [List.find?_cons_of_pos _ (by simp [hp])]
      have hes : es.find? (fun e' => decide (key e' = p)) = none := by
        rw [List.find?_eq_none]
        intro e' he' hc
        refine hnd.1 ?_
        have : key e' = key e := (of_decide_eq_true hc).trans hp.symm
        exact this ▸ List.mem_map_of_mem key he'
      rw [hes, lookup_dictAdd, if_pos hp.symm]
      rw [hp]
    · rw [List.find?_cons_of_neg _ (by simp [hp])]
      have hlk : (dictAdd m0 (key e) (val e)).lookup p = m0.lookup p := by
        rw [lookup_dictAdd, if_neg (fun h => hp h.symm)]
      rw [hlk]

theorem foldl_dictAdd_keys_nodup {ε : Type} (key : ε → String) (val : ε → ℚ) :
    ∀ (entries : List ε) (m0 : List (String × ℚ)), (m0.map Prod.fst).Nodup →
      (((entries.foldl (fun d e => dictAdd d (key e) (val e)) m0)).map Prod.fst).Nodup := by
  intro entries
  induction entries with
  | nil => intro m0 h; exact h
  | cons e es ih =>
    intro m0 h
    rw [List.foldl_cons]
    exact ih _ (nodup_keys_dictAdd _ _ h)

theorem foldl_dictAdd_keys_mem {ε : Type} (key : ε → String) (val : ε → ℚ) :
    ∀ (entries : List ε) (m0 : List (String × ℚ)) (p : String),
      (p ∈ ((entries.foldl (fun d e => dictAdd d (key e) (val e)) m0)).map Prod.fst ↔
        p ∈ m0.map Prod.fst ∨ p ∈ entries.map key) := by
  intro entries
  induction entries with
  | nil => intro m0 p; simp
  | cons e es ih =>
    intro m0 p
    rw [List.foldl_cons, ih, mem_keys_dictAdd, List.map_cons, List.mem_cons]
    tauto

/-- One product's group row of a chunk summary. -/
def productGroup (c : List Row) (p : String) : String × ℚ × ℚ :=
  (p, prodRevOf c p, prodQtyOf c p)

theorem product_chunk_eq (c : List Row) :
    product_chunk c = (sortedKeys (c.filterMap Row.product_name)).map (productGroup c) := rfl

theorem product_chunk_keys (c : List Row) :
    (product_chunk c).map Prod.fst = sortedKeys (c.filterMap Row.product_name) := by
  rw [product_chunk_eq, List.map_map]
  have hid : (Prod.fst ∘ productGroup c) = id := rfl
  rw [hid, List.map_id]

theorem product_chunk_keys_nodup (c : List Row) : ((product_chunk c).map Prod.fst).Nodup := by
  rw [product_chunk_keys]
  exact List.Pairwise.imp ne_of_lt (sortedKeys_sorted _)

theorem product_chunk_find (c : List Row) (p : String) :
    (product_chunk c).find? (fun e => decide (e.1 = p)) =
      if p ∈ c.filterMap Row.product_name then some (productGroup c p) else none := by
  rw [product_chunk_eq, List.find?_map]
  have hcomp : ((fun e : String × ℚ × ℚ => decide (e.1 = p)) ∘ productGroup c) =
      fun k => decide (k = p) := rfl
  rw [hcomp, find?_eq_self]
  by_cases hm : p ∈ c.filterMap Row.product_name
  · rw [if_pos ((mem_sortedKeys p _).mpr hm), if_pos hm]
    rfl
  · rw [if_neg (fun hc => hm ((mem_sortedKeys p _).mp hc)), if_neg hm]
    rfl

theorem process_chunk_rev_lookup (agg : DataAggregator) (df : List Row) (p : String) :
    ((process_chunk agg df).product_revenue).lookup p =
      if p ∈ df.filterMap Row.product_name
      then some (((agg.product_revenue.lookup p).getD 0) + prodRevOf df p)
      else agg.product_revenue.lookup p := by
  have h := foldl_dictAdd_lookup Prod.fst (fun e => e.2.1) (product_chunk df)
    (product_chunk_keys_nodup df) agg.product_revenue p
  rw [product_chunk_find] at h
  by_cases hm : p ∈ df.filterMap Row.product_name
  · rw [if_pos hm] at h
    rw [if_pos hm]
    exact h
  · rw [if_neg hm] at h
    rw [if_neg hm]
    exact h

theorem process_chunk_qty_lookup (agg : DataAggregator) (df : List Row) (p : String) :
    ((process_chunk agg df).product_units).lookup p =
      if p ∈ df.filterMap Row.product_name
      then some (((agg.product_units.lookup p).getD 0) + prodQtyOf df p)
      else agg.product_units.lookup p := by
  have h := foldl_dictAdd_lookup Prod.fst (fun e => e.2.2) (product_chunk df)
    (product_chunk_keys_nodup df) agg.product_units p
  rw [product_chunk_find] at h
  by_cases hm : p ∈ df.filterMap Row.product_name
  · rw [if_pos hm] at h
    rw [if_pos hm]
    exact h
  · rw [if_neg hm] at h
    rw [if_neg hm]
    exact h

theorem process_chunk_rev_nodup (agg : DataAggregator) (df : List Row)
    (h : (agg.product_revenue.map Prod.fst).Nodup) :
    (((process_chunk agg df).product_revenue).map Prod.fst).Nodup :=
  foldl_dictAdd_keys_nodup Prod.fst (fun e : String × ℚ × ℚ => e.2.1) (product_chunk df)
    agg.product_revenue h

theorem process_chunk_qty_nodup (agg : DataAggregator) (df : List Row)
    (h : (agg.product_units.map Prod.fst).Nodup) :
    (((process_chunk agg df).product_units).map Prod.fst).Nodup :=
  foldl_dictAdd_keys_nodup Prod.fst (fun e : String × ℚ × ℚ => e.2.2) (product_chunk df)
    agg.product_units h

theorem pipelineStep_empty {st : DataQualityIssues × DataAggregator} {c : List Row}
    (hc : (cleanRows c).isEmpty) : (pipelineStep st c).2 = st.2 := by
  rw [pipelineStep]
  have hlen : ¬(clean_chunk c st.1).1.length > 0 := by
    rw [clean_chunk_fst, List.isEmpty_iff.mp hc]
    simp
  simp only [if_neg hlen]

theorem pipelineStep_nonempty {st : DataQualityIssues × DataAggregator} {c : List Row}
    (hc : ¬(cleanRows c).isEmpty) :
    (pipelineStep st c).2 = process_chunk st.2 (cleanRows c) := by
  rw [pipelineStep]
  simp only [clean_chunk_fst]
  rw [if_pos]
  cases he : cleanRows c with
  | nil => rw [he] at hc; simp at hc
  | cons a l => simp [he]

theorem mem_products_append (E C : List Row) (p : String) :
    p ∈ (E ++ C).filterMap Row.product_name ↔
      p ∈ E.filterMap Row.product_name ∨ p ∈ C.filterMap Row.product_name := by
  rw [List.filterMap_append, List.mem_append]

/-- Absorbing one more cleaned chunk keeps a dict's lookup canonical over the
extended dataset. -/
theorem dict_lookup_step {d d' : List (String × ℚ)} {E Cc : List Row}
    {f : List Row → String → ℚ}
    (hadd : ∀ X Y p, f (X ++ Y) p = f X p + f Y p)
    (hzero : ∀ (X : List Row) p, p ∉ X.filterMap Row.product_name → f X p = 0)
    (hold : ∀ p, d.lookup p =
      if p ∈ E.filterMap Row.product_name then some (f E p) else none)
    (hnew : ∀ p, d'.lookup p =
      if p ∈ Cc.filterMap Row.product_name
      then some (((d.lookup p).getD 0) + f Cc p) else d.lookup p) :
    ∀ p, d'.lookup p =
      if p ∈ (E ++ Cc).filterMap Row.product_name then some (f (E ++ Cc) p) else none := by
  intro p
  rw [hnew p, hold p]
  by_cases hmc : p ∈ Cc.filterMap Row.product_name
  · rw [if_pos hmc, if_pos ((mem_products_append E Cc p).mpr (Or.inr hmc)), hadd]
    by_cases hmE : p ∈ E.filterMap Row.product_name
    · rw [if_pos hmE]
      rfl
    · rw [if_neg hmE, hzero E p hmE]
      rfl
  · rw [if_neg hmc]
    by_cases hmE : p ∈ E.filterMap Row.product_name
    · rw [if_pos hmE, if_pos ((mem_products_append E Cc p).mpr (Or.inl hmE)), hadd,
        hzero Cc p hmc, add_zero]
    · rw [if_neg hmE,
        if_neg (fun hc => (((mem_products_append E Cc p).mp hc).elim hmE hmc))]

theorem foldl_pipeline_products (css : List (List Row)) :
    ∀ (st : DataQualityIssues × DataAggregator) (E : List Row),
      (st.2.product_revenue.map Prod.fst).Nodup →
      (st.2.product_units.map Prod.fst).Nodup →
      (∀ p, st.2.product_revenue.lookup p =
        if p ∈ E.filterMap Row.product_name then some (prodRevOf E p) else none) →
      (∀ p, st.2.product_units.lookup p =
        if p ∈ E.filterMap Row.product_name then some (prodQtyOf E p) else none) →
      ((((css.foldl pipelineStep st).2).product_revenue.map Prod.fst).Nodup ∧
       (((css.foldl pipelineStep st).2).product_units.map Prod.fst).Nodup ∧
       (∀ p, ((css.foldl pipelineStep st).2).product_revenue.lookup p =
         if p ∈ (E ++ (css.map cleanRows).flatten).filterMap Row.product_name
         then some (prodRevOf (E ++ (css.map cleanRows).flatten) p) else none) ∧
       (∀ p, ((css.foldl pipelineStep st).2).product_units.lookup p =
         if p ∈ (E ++ (css.map cleanRows).flatten).filterMap Row.product_name
         then some (prodQtyOf (E ++ (css.map cleanRows).flatten) p) else none)) := by
  induction css with
  | nil =>
    intro st E h1 h2 h3 h4
    simp only [List.foldl_nil, List.map_nil, List.flatten_nil, List.append_nil]
    exact ⟨h1, h2, h3, h4⟩
  | cons c tl ih =>
    intro st E h1 h2 h3 h4
    rw [List.foldl_cons, List.map_cons, List.flatten_cons, ← List.append_assoc]
    by_cases hc : (cleanRows c).isEmpty
    · have hstep : (pipelineStep st c).2 = st.2 := pipelineStep_empty hc
      have hnil : cleanRows c = [] := List.isEmpty_iff.mp hc
      rw [hnil, List.append_nil]
      refine ih (pipelineStep st c) E ?_ ?_ ?_ ?_ <;> rw [hstep]
      · exact h1
      · exact h2
      · exact h3
      · exact h4
    · have hstep : (pipelineStep st c).2 = process_chunk st.2 (cleanRows c) :=
        pipelineStep_nonempty hc
      refine ih (pipelineStep st c) (E ++ cleanRows c) ?_ ?_ ?_ ?_ <;> rw [hstep]
      · exact process_chunk_rev_nodup st.2 (cleanRows c) h1
      · exact process_chunk_qty_nodup st.2 (cleanRows c) h2
      · exact dict_lookup_step prodRevOf_append (fun X p => prodRevOf_eq_zero) h3
          (process_chunk_rev_lookup st.2 (cleanRows c))
      · exact dict_lookup_step prodQtyOf_append (fun X p => prodQtyOf_eq_zero) h4
          (process_chunk_qty_lookup st.2 (cleanRows c))

theorem mem_iff_lookup {β : Type} [DecidableEq β] :
    ∀ {l : List (String × β)}, (l.map Prod.fst).Nodup → ∀ {k : String} {v : β},
      ((k, v) ∈ l ↔ l.lookup k = some v) := by
  intro l
  induction l with
  | nil =>
    intro _ k v
    simp [List.lookup]
  | cons e rest ih =>
    intro hnd k v
    obtain ⟨k', v'⟩ := e
    rw [List.map_cons, List.nodup_cons] at hnd
    by_cases hk : k = k'
    · subst hk
      rw [lookup_cons_eq, List.mem_cons]
      constructor
      · rintro (he | hm)
        · rw [(Prod.mk.injEq _ _ _ _).mp he |>.2]
      
        · exact absurd (List.mem_map_of_mem Prod.fst hm) hnd.1
      · intro hv
        exact Or.inl (by rw [Option.some.injEq] at hv; rw [hv])
    · rw [lookup_cons_ne hk, List.mem_cons]
      constructor
      · rintro (he | hm)
        · exact absurd ((Prod.mk.injEq _ _ _ _).mp he).1 hk
        · exact (ih hnd.2).mp hm
      · intro hv
        exact Or.inr ((ih hnd.2).mpr hv)

theorem lookup_eq_none_iff {β : Type} (l : List (String × β)) (p : String) :
    l.lookup p = none ↔ p ∉ l.map Prod.fst := by
  induction l with
  | nil => simp [List.lookup]
  | cons e rest ih =>
    obtain ⟨k', v'⟩ := e
    by_cases hk : p = k'
    · subst hk
      rw [lookup_cons_eq]
      simp
    · rw [lookup_cons_ne hk, List.map_cons, List.mem_cons, ih]
      constructor
      · intro h hc
        rcases hc with hc | hc
        · exact hk hc
        · exact h hc
      · intro h hc
        exact h (Or.inr hc)

theorem dict_eq_nil_iff {β : Type} (l : List (String × β)) :
    l = [] ↔ ∀ p, l.lookup p = none := by
  cases l with
  | nil => simp [List.lookup]
  | cons e rest =>
    obtain ⟨k', v'⟩ := e
    constructor
    · intro h
      exact absurd h (by simp)
    · intro h
      have := h k'
      rw [lookup_cons_eq] at this
      exact absurd this (by simp)

theorem mem_insertDescBy {α : Type} (key : α → ℚ) (x a : α) (l : List α) :
    a ∈ insertDescBy key x l ↔ a = x ∨ a ∈ l := by
  induction l with
  | nil => simp [insertDescBy]
  | cons y ys ih =>
    rw [insertDescBy]
    by_cases h : key x ≥ key y
    · rw [if_pos h]
      simp [List.mem_cons]
    · rw [if_neg h, List.mem_cons, List.mem_cons, ih]
      tauto

theorem insertDescBy_sorted {α : Type} (key : α → ℚ) (x : α) {l : List α}
    (h : l.Pairwise (fun a b => key b ≤ key a)) :
    (insertDescBy key x l).Pairwise (fun a b => key b ≤ key a) := by
  induction l with
  | nil => simp [insertDescBy]
  | cons y ys ih =>
    rw [List.pairwise_cons] at h
    rw [insertDescBy]
    by_cases hxy : key x ≥ key y
    · rw [if_pos hxy, List.pairwise_cons]
      refine ⟨?_, List.Pairwise.cons h.1 h.2⟩
      intro b hb
      rcases List.mem_cons.mp hb with rfl | hb'
      · exact hxy
      · exact (h.1 b hb').trans hxy
    · rw [if_neg hxy, List.pairwise_cons]
      refine ⟨?_, ih h.2⟩
      intro b hb
      rcases (mem_insertDescBy key x b ys).mp hb with rfl | hb'
      · exact le_of_not_le hxy
      · exact h.1 b hb'

theorem sortDescBy_sorted {α : Type} (key : α → ℚ) (l : List α) :
    (sortDescBy key l).Pairwise (fun a b => key b ≤ key a) := by
  induction l with
  | nil => simp [sortDescBy]
  | cons x xs ih => exact insertDescBy_sorted key x ih

theorem insertDescBy_perm {α : Type} (key : α → ℚ) (x : α) (l : List α) :
    (insertDescBy key x l).Perm (x :: l) := by
  induction l with
  | nil => exact List.Perm.refl _
  | cons y ys ih =>
    rw [insertDescBy]
    by_cases h : key x ≥ key y
    · rw [if_pos h]
    · rw [if_neg h]
      exact (List.Perm.cons y ih).trans (List.Perm.swap x y ys)

theorem sortDescBy_perm {α : Type} (key : α → ℚ) (l : List α) :
    (sortDescBy key l).Perm l := by
  induction l with
  | nil => exact List.Perm.refl _
  | cons x xs ih =>
    exact (insertDescBy_perm key x (sortDescBy key xs)).trans (List.Perm.cons x ih)

/-- Two descending-sorted permutations of the same elements coincide when the
sort keys are pairwise distinct. -/
theorem eq_of_perm_of_sortedDesc {α : Type} (key : α → ℚ) :
    ∀ {l1 l2 : List α}, l1.Perm l2 →
      l1.Pairwise (fun a b => key b ≤ key a) →
      l2.Pairwise (fun a b => key b ≤ key a) →
      l1.Pairwise (fun a b => key a ≠ key b) →
      l1 = l2 := by
  intro l1
  induction l1 with
  | nil =>
    intro l2 hperm _ _ _
    exact (hperm.nil_eq).symm ▸ rfl
  | cons x xs ih =>
    intro l2 hperm h1 h2 hd
    cases l2 with
    | nil => exact absurd hperm.symm (by simp)
    | cons y ys =>
      rw [List.pairwise_cons] at h1 h2 hd
      have hxy : x = y := by
        rcases List.mem_cons.mp (hperm.subset (List.mem_cons_self x xs)) with h | hx
        · exact h
        · rcases List.mem_cons.mp (hperm.symm.subset (List.mem_cons_self y ys)) with h | hy
          · exact h.symm
          · exact absurd (le_antisymm (h1.1 y hy) (h2.1 x hx)).symm (hd.1 y hy)
      subst hxy
      exact congrArg _ (ih hperm.cons_inv h1.2 h2.2 hd.2)

/-- Two aggregator states whose product dicts are canonical for the same
cleaned dataset produce identical top-product reports, provided the
per-product revenue totals are pairwise distinct and likewise the unit
totals. -/
theorem get_top_products_congr (n : ℕ) (E : List Row) (aggA aggB : DataAggregator)
    (hArN : (aggA.product_revenue.map Prod.fst).Nodup)
    (hBrN : (aggB.product_revenue.map Prod.fst).Nodup)
    (hAr : ∀ p, aggA.product_revenue.lookup p =
      if p ∈ E.filterMap Row.product_name then some (prodRevOf E p) else none)
    (hAu : ∀ p, aggA.product_units.lookup p =
      if p ∈ E.filterMap Row.product_name then some (prodQtyOf E p) else none)
    (hBr : ∀ p, aggB.product_revenue.lookup p =
      if p ∈ E.filterMap Row.product_name then some (prodRevOf E p) else none)
    (hBu : ∀ p, aggB.product_units.lookup p =
      if p ∈ E.filterMap Row.product_name then some (prodQtyOf E p) else none)
    (hrev : ∀ p1 p2, p1 ∈ E.filterMap Row.product_name → p2 ∈ E.filterMap Row.product_name →
      p1 ≠ p2 → prodRevOf E p1 ≠ prodRevOf E p2)
    (hqty : ∀ p1 p2, p1 ∈ E.filterMap Row.product_name → p2 ∈ E.filterMap Row.product_name →
      p1 ≠ p2 → prodQtyOf E p1 ≠ prodQtyOf E p2) :
    get_top_products n aggA = get_top_products n aggB := by
  have hkeysmem : ∀ (agg : DataAggregator),
      (∀ p, agg.product_revenue.lookup p =
        if p ∈ E.filterMap Row.product_name then some (prodRevOf E p) else none) →
      ∀ p, (p ∈ agg.product_revenue.map Prod.fst ↔ p ∈ E.filterMap Row.product_name) := by
    intro agg hl p
    rw [← not_iff_not, ← lookup_eq_none_iff, hl p]
    by_cases hm : p ∈ E.filterMap Row.product_name
    · rw [if_pos hm]
      simp [hm]
    · rw [if_neg hm]
      simp [hm]
  have hprod : ∀ (agg : DataAggregator),
      (agg.product_revenue.map Prod.fst).Nodup →
      (∀ p, agg.product_revenue.lookup p =
        if p ∈ E.filterMap Row.product_name then some (prodRevOf E p) else none) →
      (∀ p, agg.product_units.lookup p =
        if p ∈ E.filterMap Row.product_name then some (prodQtyOf E p) else none) →
      (agg.product_revenue.map fun pv =>
          (pv.1, pv.2, ((agg.product_units.lookup pv.1).getD 0))) =
        (agg.product_revenue.map Prod.fst).map
          (fun p => (p, prodRevOf E p, prodQtyOf E p)) := by
    intro agg hN hr hu
    rw [List.map_map]
    refine List.map_congr_left ?_
    intro pv hpv
    have hlook : agg.product_revenue.lookup pv.1 = some pv.2 := by
      have : (pv.1, pv.2) ∈ agg.product_revenue := by
        cases pv
        exact hpv
      exact (mem_iff_lookup hN).mp this
    have hmem : pv.1 ∈ E.filterMap Row.product_name := by
      by_contra hc
      rw [hr pv.1, if_neg hc] at hlook
      exact Option.noConfusion hlook
    have hv : pv.2 = prodRevOf E pv.1 := by
      rw [hr pv.1, if_pos hmem, Option.some.injEq] at hlook
      exact hlook.symm
    rw [Function.comp, hu pv.1, if_pos hmem]
    rw [hv]
    rfl
  have hprodA := hprod aggA hArN hAr hAu
  have hprodB := hprod aggB hBrN hBr hBu
  have hkeysperm : (aggA.product_revenue.map Prod.fst).Perm
      (aggB.product_revenue.map Prod.fst) := by
    refine (List.perm_ext_iff_of_nodup hArN hBrN).mpr ?_
    intro p
    rw [hkeysmem aggA hAr p, hkeysmem aggB hBr p]
  have hprodsperm :
      ((aggA.product_revenue.map Prod.fst).map
          (fun p => (p, prodRevOf E p, prodQtyOf E p))).Perm
        ((aggB.product_revenue.map Prod.fst).map
          (fun p => (p, prodRevOf E p, prodQtyOf E p))) :=
    hkeysperm.map _
  have hpwA : ∀ (agg : DataAggregator),
      (agg.product_revenue.map Prod.fst).Nodup →
      (∀ p, agg.product_revenue.lookup p =
        if p ∈ E.filterMap Row.product_name then some (prodRevOf E p) else none) →
      (∀ (key : String × ℚ × ℚ → ℚ),
        (∀ p1 p2, p1 ∈ E.filterMap Row.product_name → p2 ∈ E.filterMap Row.product_name →
          p1 ≠ p2 → key (p1, prodRevOf E p1, prodQtyOf E p1) ≠
            key (p2, prodRevOf E p2, prodQtyOf E p2)) →
        ((agg.product_revenue.map Prod.fst).map
            (fun p => (p, prodRevOf E p, prodQtyOf E p))).Pairwise
          (fun a b => key a ≠ key b)) := by
    intro agg hN hr key hkey
    rw [List.pairwise_map]
    refine List.Pairwise.imp_of_mem ?_ hN
    intro p1 p2 h1 h2 hne
    exact hkey p1 p2 ((hkeysmem agg hr p1).mp h1) ((hkeysmem agg hr p2).mp h2) hne
  have hsortEq : ∀ (key : String × ℚ × ℚ → ℚ),
      (∀ p1 p2, p1 ∈ E.filterMap Row.product_name → p2 ∈ E.filterMap Row.product_name →
        p1 ≠ p2 → key (p1, prodRevOf E p1, prodQtyOf E p1) ≠
          key (p2, prodRevOf E p2, prodQtyOf E p2)) →
      nlargestBy n key ((aggA.product_revenue.map Prod.fst).map
          (fun p => (p, prodRevOf E p, prodQtyOf E p))) =
        nlargestBy n key ((aggB.product_revenue.map Prod.fst).map
          (fun p => (p, prodRevOf E p, prodQtyOf E p))) := by
    intro key hkey
    rw [nlargestBy, nlargestBy]
    refine congrArg _ ?_
    have hperm : (sortDescBy key ((aggA.product_revenue.map Prod.fst).map
        (fun p => (p, prodRevOf E p, prodQtyOf E p)))).Perm
        (sortDescBy key ((aggB.product_revenue.map Prod.fst).map
          (fun p => (p, prodRevOf E p, prodQtyOf E p)))) :=
      ((sortDescBy_perm key _).trans hprodsperm).trans (sortDescBy_perm key _).symm
    refine eq_of_perm_of_sortedDesc key hperm (sortDescBy_sorted key _)
      (sortDescBy_sorted key _) ?_
    have hsym : ∀ {x y : String × ℚ × ℚ}, key x ≠ key y → key y ≠ key x :=
      fun h => Ne.symm h
    refine ((sortDescBy_perm key _).pairwise_iff hsym).mpr ?_
    exact hpwA aggA hArN hAr key hkey
  have hguard : (aggA.product_revenue = []) ↔ (aggB.product_revenue = []) := by
    rw [dict_eq_nil_iff, dict_eq_nil_iff]
    constructor
    · intro h p
      rw [hBr p, ← hAr p]
      exact h p
    · intro h p
      rw [hAr p, ← hBr p]
      exact h p
  simp only [get_top_products]
  by_cases hnil : aggA.product_revenue = []
  · rw [if_pos hnil, if_pos (hguard.mp hnil)]
  · rw [if_neg hnil, if_neg (fun hc => hnil (hguard.mpr hc)), hprodA, hprodB,
      hsortEq (fun x => x.2.1) (fun p1 p2 m1 m2 hne => hrev p1 p2 m1 m2 hne),
      hsortEq (fun x => x.2.2) (fun p1 p2 m1 m2 hne => hqty p1 p2 m1 m2 hne)]

/-- After a full run, the product dicts are canonical for the cleaned
dataset of the run. -/
theorem process_chunks_products (css : List (List Row)) (D : List Row)
    (hflat : css.flatten = D)
    (hids : D.Pairwise (fun a b => a.order_id ≠ b.order_id)) :
    (((process_chunks css).2.product_revenue.map Prod.fst).Nodup ∧
     ((process_chunks css).2.product_units.map Prod.fst).Nodup ∧
     (∀ p, (process_chunks css).2.product_revenue.lookup p =
       if p ∈ (D.filterMap cleanRow).filterMap Row.product_name
       then some (prodRevOf (D.filterMap cleanRow) p) else none) ∧
     (∀ p, (process_chunks css).2.product_units.lookup p =
       if p ∈ (D.filterMap cleanRow).filterMap Row.product_name
       then some (prodQtyOf (D.filterMap cleanRow) p) else none)) := by
  have h := foldl_pipeline_products css (initIssues, initAggregator) []
    List.nodup_nil List.nodup_nil
    (fun p => by rw [if_neg (by simp)]; rfl)
    (fun p => by rw [if_neg (by simp)]; rfl)
  rw [List.nil_append, flatten_cleanRows hflat hids] at h
  exact h

/-- Claim C1 (amended): with pairwise-distinct order ids — so that batch-level
deduplication cannot make the cleaned data depend on chunk boundaries — and
pairwise-distinct per-product revenue and unit totals, any two chunkings of
the same input rows produce identical `finalize_top_products` outputs and
`finalize_monthly` outputs that agree on month keys, total revenue and total
quantity (the unweighted mean-of-means `avg_discount` may still differ). -/
theorem C1_rechunking_amended (D : List Row) (css1 css2 : List (List Row)) (n : ℕ)
    (h1 : css1.flatten = D) (h2 : css2.flatten = D)
    (hids : D.Pairwise (fun a b => a.order_id ≠ b.order_id))
    (hrev : ∀ p1 p2, p1 ∈ (D.filterMap cleanRow).filterMap Row.product_name →
      p2 ∈ (D.filterMap cleanRow).filterMap Row.product_name → p1 ≠ p2 →
      prodRevOf (D.filterMap cleanRow) p1 ≠ prodRevOf (D.filterMap cleanRow) p2)
    (hqty : ∀ p1 p2, p1 ∈ (D.filterMap cleanRow).filterMap Row.product_name →
      p2 ∈ (D.filterMap cleanRow).filterMap Row.product_name → p1 ≠ p2 →
      prodQtyOf (D.filterMap cleanRow) p1 ≠ prodQtyOf (D.filterMap cleanRow) p2) :
    ((get_monthly_sales_summary (process_chunks css1).2).map
        (fun x => (x.year_month, x.total_revenue, x.total_quantity)) =
      (get_monthly_sales_summary (process_chunks css2).2).map
        (fun x => (x.year_month, x.total_revenue, x.total_quantity))) ∧
    get_top_products n (process_chunks css1).2 =
      get_top_products n (process_chunks css2).2 := by
  constructor
  · rw [monthly_summary_proj css1 D h1 hids, monthly_summary_proj css2 D h2 hids]
  · obtain ⟨hA1, hA2, hA3, hA4⟩ := process_chunks_products css1 D h1 hids
    obtain ⟨hB1, hB2, hB3, hB4⟩ := process_chunks_products css2 D h2 hids
    exact get_top_products_congr n (D.filterMap cleanRow) _ _ hA1 hB1 hA3 hA4 hB3 hB4
      hrev hqty

/-- `round2` is rounding to two decimal places: `round(x*100)/100`. -/
theorem round2_eq_div (x : ℚ) : round2 x = (round (x * 100) : ℚ) / 100 := by
  rw [round2, Rat.mkRat_eq_div]
  norm_num

/-- Three fully-valid rows with distinct order ids, equal month and product,
and discounts 0, 0, 100. -/
def c1RowA : Row := { sampleRow with discount_percent := some 0 }

def c1RowB : Row :=
  { sampleRow with order_id := some ("B1"), discount_percent := some 0 }

def c1RowC : Row :=
  { sampleRow with order_id := some ("C1"), discount_percent := some 100 }

/-- Claim C1 counterexample: the same two rows chunked as one batch versus two
batches give different `finalize_top_products` outputs.  The rows share an
order id, so the one-batch run deduplicates them to a single product while the
two-batch run keeps both — deduplication is per batch, so re-chunking changes
the cleaned dataset itself. -/
theorem C1_counterexample :
    ([[sampleRow, dupIdRow]] : List (List Row)).flatten =
      ([[sampleRow], [dupIdRow]] : List (List Row)).flatten ∧
    get_top_products 10 (process_chunks [[sampleRow, dupIdRow]]).2 ≠
      get_top_products 10 (process_chunks [[sampleRow], [dupIdRow]]).2 := by
  refine ⟨rfl, fun h => ?_⟩
  have hlen := congrArg List.length h
  have e1 : (get_top_products 10 (process_chunks [[sampleRow, dupIdRow]]).2).length = 1 := by
    with_unfolding_all decide
  have e2 : (get_top_products 10 (process_chunks [[sampleRow], [dupIdRow]]).2).length = 2 := by
    with_unfolding_all decide
  rw [e1, e2] at hlen
  exact absurd hlen (by decide)

/-- Witness for the amended C1 at a concrete dataset and two concrete
chunkings (which do produce different `avg_discount` values: 33.33 versus the
mean-of-means 50). -/
theorem C1_rechunking_amended_witness :
    ((get_monthly_sales_summary (process_chunks [[c1RowA, c1RowB, c1RowC]]).2).map
        (fun x => (x.year_month, x.total_revenue, x.total_quantity)) =
      (get_monthly_sales_summary (process_chunks [[c1RowA, c1RowB], [c1RowC]]).2).map
        (fun x => (x.year_month, x.total_revenue, x.total_quantity))) ∧
    get_top_products 10 (process_chunks [[c1RowA, c1RowB, c1RowC]]).2 =
      get_top_products 10 (process_chunks [[c1RowA, c1RowB], [c1RowC]]).2 :=
  C1_rechunking_amended [c1RowA, c1RowB, c1RowC] [[c1RowA, c1RowB, c1RowC]]
    [[c1RowA, c1RowB], [c1RowC]] 10 rfl rfl
    (by with_unfolding_all decide)
    (fun p1 p2 hp1 hp2 hne => by
      have hL : (([c1RowA, c1RowB, c1RowC] : List Row).filterMap cleanRow).filterMap
          Row.product_name = [("Widget"), ("Widget"), ("Widget")] := by
        with_unfolding_all decide
      rw [hL] at hp1 hp2
      simp only [List.mem_cons, List.not_mem_nil, or_false, or_self] at hp1 hp2
      exact (hne (hp1.trans hp2.symm)).elim)
    (fun p1 p2 hp1 hp2 hne => by
      have hL : (([c1RowA, c1RowB, c1RowC] : List Row).filterMap cleanRow).filterMap
          Row.product_name = [("Widget"), ("Widget"), ("Widget")] := by
        with_unfolding_all decide
      rw [hL] at hp1 hp2
      simp only [List.mem_cons, List.not_mem_nil, or_false, or_self] at hp1 hp2
      exact (hne (hp1.trans hp2.symm)).elim)
